import Mathlib

/-!
outRun2077: track generator, vehicle physics and road projection

A shallow embedding of `src/main.js`.

* JavaScript numbers are modelled by exact rationals (`ℚ`); integer-valued
  quantities (segment indices, loop counters) are `ℤ` or `ℕ`.  Rounding of
  IEEE doubles is not modelled.
* `Math.random()` is a stream `ℕ → Rand` of values in `[0, 1)` together with a
  cursor counting how many values have been drawn.
* `segments` is a `List Segment`; `segments[i]` is `getSeg`, which fails
  (`none`) exactly when JavaScript would yield `undefined` and the following
  property access would throw.
* The instanced meshes are modelled by the log of `setMatrixAt` / `setColorAt`
  calls of one frame (slot and position; rotations are not modelled).
-/

namespace OutRun

/-! ## Constants (main.js 50-53) -/

def SEG_L : ℚ := 400
def ROAD_W : ℚ := 8000
def DRAW_D : ℕ := 1000
def CAR_W_REF : ℚ := 250
def ROAD_LIMIT : ℚ := (ROAD_W / 2) - (CAR_W_REF / 2) - 100
def OFFSET_BACK : ℕ := 5
def MAX_SPEED : ℚ := 420
def LANE_COUNT : ℕ := 7

/-! ## Data model -/

/-- One element of `segments`: `{ curve, color }`. -/
structure Segment where
  curve : ℚ
  color : ℕ
  deriving DecidableEq, Repr

/-- A result of `Math.random()`: a number in `[0, 1)`. -/
structure Rand where
  val : ℚ
  nonneg : 0 ≤ val
  lt_one : val < 1

/-- The `keys` map restricted to the four keys that `animate` reads. -/
structure Keys where
  arrowup : Bool
  arrowdown : Bool
  arrowleft : Bool
  arrowright : Bool
  deriving DecidableEq, Repr

/-- The mutable globals of main.js, plus the cursor `rng` into the random stream. -/
structure State where
  segments : List Segment
  difficulty : ℚ
  rng : ℕ
  pos : ℚ
  playerX : ℚ
  speed : ℚ
  carRotationY : ℚ
  shakeAmount : ℚ

/-- One `setMatrixAt(slot, m)` call, `m` being a translation to `(x, y, z)`. -/
structure Write where
  slot : ℕ
  x : ℚ
  y : ℚ
  z : ℚ
  deriving DecidableEq, Repr

/-- The instance writes of one frame, in program order. -/
structure Frame where
  road : List Write
  roadColor : List (ℕ × ℕ)
  lane : List Write
  pole : List Write

/-! ## Helpers standing for JavaScript / three.js primitives -/

/-- The array read `segments[idx]`: `undefined` (here `none`) outside `0 .. length-1`. -/
def getSeg (segments : List Segment) (idx : ℤ) : Option Segment :=
  if 0 ≤ idx then segments[idx.toNat]? else none

/-- `THREE.MathUtils.clamp(value, min, max) = Math.max(min, Math.min(max, value))`. -/
def clamp (value lo hi : ℚ) : ℚ := max lo (min hi value)

/-- `THREE.MathUtils.lerp(x, y, t) = (1 - t) * x + t * y`. -/
def lerp (x y t : ℚ) : ℚ := (1 - t) * x + t * y

/-- JavaScript `a % b` on numbers: the remainder of the truncated quotient. -/
def jsMod (a b : ℚ) : ℚ :=
  let q := a / b
  a - b * (if 0 ≤ q then ⌊q⌋ else ⌈q⌉)

/-! ## Track generator (main.js 58-82) -/

/-- The value of `p` computed by lines 60-62 of `addRoadChunk` for loop counter `i`. -/
def rampP (len : ℕ) (i : ℕ) : ℚ :=
  let p : ℚ := 1
  let p : ℚ := if i < 50 then (i : ℚ) / 50 else p
  if (i : ℤ) > (len : ℤ) - 50 then ((len : ℚ) - (i : ℚ)) / 50 else p

/-- The body of the `for` loop of `addRoadChunk` for loop counter `i`. -/
def addRoadChunkStep (len : ℕ) (curve : ℚ) (segments : List Segment) (i : ℕ) : List Segment :=
  segments ++ [{ curve := curve * rampP len i, color := (segments.length / 3) % 2 }]

/-- `addRoadChunk(len, curve)`: `for (let i = 0; i < len; i++) segments.push(...)`. -/
def addRoadChunk (len : ℕ) (curve : ℚ) (segments : List Segment) : List Segment :=
  (List.range len).foldl (addRoadChunkStep len curve) segments

/-- The `while (segments.length < 20000)` loop of `generateTrack`, with an
iteration budget.  Each iteration draws `type` and `len`, and for a curved chunk
also the direction and the intensity. -/
def generateTrackLoop (random : ℕ → Rand) : ℕ → State → State
  | 0, s => s
  | fuel + 1, s =>
    if s.segments.length < 20000 then
      let type := (random s.rng).val
      let len : ℕ := 200 + ⌊(random (s.rng + 1)).val * 300⌋.toNat
      if type < 0.3 then
        generateTrackLoop random fuel
          { s with segments := addRoadChunk len 0 s.segments, rng := s.rng + 2 }
      else
        let curveDirection : ℚ := if (random (s.rng + 2)).val > 0.5 then 1 else -1
        let curveIntensity : ℚ := (2.0 + (random (s.rng + 3)).val * 3.0) * s.difficulty
        generateTrackLoop random fuel
          { s with
            segments := addRoadChunk len (curveDirection * curveIntensity) s.segments
            difficulty := s.difficulty + 0.01
            rng := s.rng + 4 }
    else s

/-- `generateTrack()`.  Every iteration appends at least 200 segments, so 100
iterations always reach the exit test of the loop (`generateTrack_length_ge`). -/
def generateTrack (random : ℕ → Rand) (s : State) : State :=
  generateTrackLoop random 100 s

/-- The globals after module start-up: `addRoadChunk(500, 0); generateTrack();`
and `pos = 0, playerX = 0, speed = 0, carRotationY = 0, shakeAmount = 0`. -/
def initial (random : ℕ → Rand) : State :=
  generateTrack random
    { segments := addRoadChunk 500 0 [], difficulty := 1.0, rng := 0,
      pos := 0, playerX := 0, speed := 0, carRotationY := 0, shakeAmount := 0 }

/-! ## The frame callback `animate` (main.js 111-230) -/

/-- Lines 114-115: the lookahead check. -/
def lookahead (random : ℕ → Rand) (s : State) : State :=
  let playerIdx : ℤ := ⌊s.pos / SEG_L⌋
  if playerIdx > (s.segments.length : ℤ) - 5000 then generateTrack random s else s

/-- Line 116: `segments[playerIdx % segments.length].curve`. -/
def currentCurve (s : State) : Option ℚ :=
  let playerIdx : ℤ := ⌊s.pos / SEG_L⌋
  (getSeg s.segments (Int.tmod playerIdx s.segments.length)).map Segment.curve

/-- Lines 119-126: the throttle step. -/
def throttle (keys : Keys) (speed : ℚ) : ℚ :=
  if keys.arrowup then
    let accel := 6 * (1 - (speed / MAX_SPEED))
    speed + max accel 0.1
  else if keys.arrowdown then
    max (speed - 15) 0
  else
    speed * 0.99

/-- Lines 128-133: `(lateralInput, targetRotation)`. -/
def steering (keys : Keys) (speed : ℚ) : ℚ × ℚ :=
  let r : ℚ × ℚ := (0, 0)
  if speed > 10 then
    let r := if keys.arrowleft then (-1, 0.3) else r
    if keys.arrowright then (1, -0.3) else r
  else r

/-- Lines 119-147 and 157-160: the physics step on `speed`, `playerX`, `pos`
and the shake magnitude, for the curvature `curve` read at line 116. -/
def physics (keys : Keys) (curve : ℚ) (s : State) : State :=
  let speed := throttle keys s.speed
  let lateralInput := (steering keys speed).1
  let targetRotation := (steering keys speed).2
  let roadPush := -curve * (speed / 200)
  let playerPull := lateralInput * (speed / 12)
  let playerX := s.playerX + (roadPush + playerPull)
  let hit : ℚ × ℚ :=
    if |playerX| ≥ ROAD_LIMIT then (speed * 0.98, clamp playerX (-ROAD_LIMIT) ROAD_LIMIT)
    else (speed, playerX)
  let playerX := hit.2
  let speed := min hit.1 MAX_SPEED
  let pos := s.pos + speed
  let shakeAmount : ℚ := if speed > 350 then ((speed - 350) / (MAX_SPEED - 350)) * 4 else 0
  { s with
    pos := pos, playerX := playerX, speed := speed, shakeAmount := shakeAmount
    carRotationY := lerp s.carRotationY targetRotation 0.1
    rng := s.rng + 2 }

/-- The index resolution of lines 171 and 179:
`(idxRaw < 0 ? len + (idxRaw % len) : idxRaw) % len`. -/
def resolveIdx (len : ℤ) (idxRaw : ℤ) : ℤ :=
  Int.tmod (if idxRaw < 0 then len + Int.tmod idxRaw len else idxRaw) len

/-- The wrap rule of the specification of the segment store, `(len + (idx % len)) % len`, with truncating `%`. -/
def specWrap (len : ℤ) (idx : ℤ) : ℤ := Int.tmod (len + Int.tmod idx len) len

/-- Body of the seed loop (lines 169-174) on `(dx, currX)`. -/
def seedStep (segments : List Segment) (startIdx : ℤ) (acc : ℚ × ℚ) (j : ℕ) :
    Option (ℚ × ℚ) :=
  let idxRaw := startIdx + (j : ℤ)
  let idx := resolveIdx segments.length idxRaw
  (getSeg segments idx).map fun seg =>
    let dx := acc.1 + seg.curve
    (dx, acc.2 + dx)

/-- The lane-marker writes of slot `n` (lines 190-195). -/
def laneWrites (n : ℕ) (segmentX relativeZ : ℚ) : List Write :=
  (List.range LANE_COUNT).map fun (l : ℕ) =>
    let lanePosX := ((l : ℚ) + 1) * (ROAD_W / ((LANE_COUNT : ℚ) + 1)) - (ROAD_W / 2)
    { slot := n * LANE_COUNT + l, x := segmentX + lanePosX, y := 5, z := relativeZ }

/-- The pole writes of slot `n` (lines 197-210). -/
def poleWrites (n : ℕ) (idx : ℤ) (segmentX relativeZ : ℚ) : List Write :=
  if Int.tmod idx 10 = 0 then
    [{ slot := n * 2, x := segmentX - ROAD_W / 2 - 200, y := 300, z := relativeZ },
     { slot := n * 2 + 1, x := segmentX + ROAD_W / 2 + 200, y := 300, z := relativeZ }]
  else
    [{ slot := n * 2, x := 0, y := -50000, z := 0 },
     { slot := n * 2 + 1, x := 0, y := -50000, z := 0 }]

/-- Loop state of the draw loop: `dx`, `currX` and the writes so far. -/
structure Draw where
  dx : ℚ
  currX : ℚ
  frame : Frame

/-- Body of the draw loop (lines 177-212) for loop counter `n`. -/
def drawStep (s : State) (startIdx : ℤ) (offsetZ : ℚ) (d : Draw) (n : ℕ) : Option Draw :=
  let idxRaw := startIdx + (n : ℤ)
  let idx := resolveIdx s.segments.length idxRaw
  (getSeg s.segments idx).map fun seg =>
    let relativeZ := -(((n : ℚ) - (OFFSET_BACK : ℚ)) * SEG_L - offsetZ)
    let segmentX := d.currX - s.playerX
    { dx := d.dx + seg.curve
      currX := d.currX + d.dx
      frame :=
        { road := d.frame.road ++ [{ slot := n, x := segmentX, y := 0, z := relativeZ }]
          roadColor := d.frame.roadColor ++ [(n, if seg.color ≠ 0 then 0x080808 else 0x101010)]
          lane := d.frame.lane ++ laneWrites n segmentX relativeZ
          pole := d.frame.pole ++ poleWrites n idx segmentX relativeZ } }

/-- Lines 165-212: the render calculation on the state after the physics step. -/
def render (s : State) : Option Frame :=
  let startIdx : ℤ := ⌊s.pos / SEG_L⌋ - (OFFSET_BACK : ℤ)
  let offsetZ := jsMod s.pos SEG_L
  ((List.range OFFSET_BACK).foldlM (seedStep s.segments startIdx) ((0, 0) : ℚ × ℚ)).bind
    fun acc =>
      ((List.range DRAW_D).foldlM (drawStep s startIdx offsetZ)
        { dx := acc.1, currX := acc.2,
          frame := { road := [], roadColor := [], lane := [], pole := [] } }).map Draw.frame

/-- One call of `animate()`: `none` when a segment read yields `undefined`. -/
def animate (random : ℕ → Rand) (keys : Keys) (s : State) : Option (State × Frame) :=
  let s := lookahead random s
  (currentCurve s).bind fun curve =>
    let s := physics keys curve s
    (render s).map fun frame => (s, frame)

/-- The state after the frames whose key states are `ks` (first frame first),
started in `s`. -/
def ticks (random : ℕ → Rand) : List Keys → State → Option State
  | [], s => some s
  | keys :: ks, s => (animate random keys s).bind fun r => ticks random ks r.1

/-- The state reached from module start-up after the frames `ks`. -/
def run (random : ℕ → Rand) (ks : List Keys) : Option State :=
  ticks random ks (initial random)

/-- The physics step alone, iterated over per-frame `(keys, curvature)` pairs. -/
def physicsRun (inputs : List (Keys × ℚ)) (s : State) : State :=
  inputs.foldl (fun s kc => physics kc.1 kc.2 s) s

/-- A state with an empty store and the start-up values of the vehicle. -/
def start : State :=
  { segments := [], difficulty := 1.0, rng := 0,
    pos := 0, playerX := 0, speed := 0, carRotationY := 0, shakeAmount := 0 }

/-- The random stream that always yields 0. -/
def zeroRandom : ℕ → Rand := fun _ => ⟨0, le_refl 0, by norm_num⟩

/-- Key state with only the accelerate key held. -/
def upKey : Keys := { arrowup := true, arrowdown := false, arrowleft := false, arrowright := false }

/-- The invariant of the frame loop: the store holds between 20000 and 20498
segments, the vehicle has not moved backwards, and speed and lateral offset are
within their bounds. -/
def Inv (s : State) : Prop :=
  20000 ≤ s.segments.length ∧ s.segments.length ≤ 20498 ∧ 0 ≤ s.pos ∧
    0 ≤ s.speed ∧ s.speed ≤ MAX_SPEED ∧ |s.playerX| ≤ ROAD_LIMIT

/-- A call of one of the two functions that write the store. -/
inductive GenCall where
  | addRoadChunk (len : ℕ) (curve : ℚ)
  | generateTrack (random : ℕ → Rand)

/-- The effect of one such call on the globals. -/
def GenCall.apply : GenCall → State → State
  | GenCall.addRoadChunk len curve, s =>
      { s with segments := OutRun.addRoadChunk len curve s.segments }
  | GenCall.generateTrack random, s => OutRun.generateTrack random s

/-- The effect of a sequence of such calls, first call first. -/
def applyCalls (calls : List GenCall) (s : State) : State :=
  calls.foldl (fun s c => c.apply s) s

/-- The banding `floor(i / 3) % 2` for the indices `0 .. n-1`. -/
def bandColors (n : ℕ) : List ℕ :=
  (List.range n).map fun i => (i / 3) % 2

/-- Key state with no key held. -/
def noKeys : Keys :=
  { arrowup := false, arrowdown := false, arrowleft := false, arrowright := false }

/-- Key state with the accelerate and the brake key both held. -/
def upDownKeys : Keys :=
  { arrowup := true, arrowdown := true, arrowleft := false, arrowright := false }

/-- Key state with the accelerate and the steer-left key held. -/
def upLeftKeys : Keys :=
  { arrowup := true, arrowdown := false, arrowleft := true, arrowright := false }

/-- The globals right after `addRoadChunk(500, 0)` at line 81, before the first
`generateTrack()`. -/
def seeded : State :=
  { segments := addRoadChunk 500 0 [], difficulty := 1.0, rng := 0,
    pos := 0, playerX := 0, speed := 0, carRotationY := 0, shakeAmount := 0 }

/-- Instance count of `roadMesh` (line 87). -/
def roadMeshCount : ℕ := DRAW_D

/-- Instance count of `poleMesh` (line 94). -/
def poleMeshCount : ℕ := DRAW_D * 2

/-- Instance count of `laneMesh` (line 101). -/
def laneMeshCount : ℕ := DRAW_D * LANE_COUNT

/-- The start-up values of the vehicle with `speed = 200`. -/
def cruise : State :=
  { segments := [], difficulty := 1.0, rng := 0,
    pos := 0, playerX := 0, speed := 200, carRotationY := 0, shakeAmount := 0 }

/-- One chunk synthesized by an iteration of the loop of `generateTrack`: the
arguments of its `addRoadChunk(len, curve)` call, whether the iteration took the
curved branch, and the value of `difficulty` when it was synthesized. -/
structure Chunk where
  len : ℕ
  curve : ℚ
  curved : Bool
  difficulty : ℚ

/-- The chunks synthesized by `generateTrackLoop`, in order: the trace of the
loop, following the same tests and the same random draws. -/
def generateTrackLog (random : ℕ → Rand) : ℕ → State → List Chunk
  | 0, _ => []
  | fuel + 1, s =>
    if s.segments.length < 20000 then
      let type := (random s.rng).val
      let len : ℕ := 200 + ⌊(random (s.rng + 1)).val * 300⌋.toNat
      if type < 0.3 then
        { len := len, curve := 0, curved := false, difficulty := s.difficulty } ::
          generateTrackLog random fuel
            { s with segments := addRoadChunk len 0 s.segments, rng := s.rng + 2 }
      else
        let curveDirection : ℚ := if (random (s.rng + 2)).val > 0.5 then 1 else -1
        let curveIntensity : ℚ := (2.0 + (random (s.rng + 3)).val * 3.0) * s.difficulty
        { len := len, curve := curveDirection * curveIntensity, curved := true,
          difficulty := s.difficulty } ::
          generateTrackLog random fuel
            { s with
              segments := addRoadChunk len (curveDirection * curveIntensity) s.segments
              difficulty := s.difficulty + 0.01
              rng := s.rng + 4 }
    else []

/-- The number of curved chunks in a trace. -/
def curvedCount (log : List Chunk) : ℕ := log.countP fun ch => ch.curved

/-- The store obtained by appending the chunks of a trace, in order. -/
def replay (log : List Chunk) (segments : List Segment) : List Segment :=
  log.foldl (fun segs ch => addRoadChunk ch.len ch.curve segs) segments

/-- The window start `startIdx = Math.floor(pos / SEG_L) - OFFSET_BACK` of line 165. -/
def startIdxOf (s : State) : ℤ := ⌊s.pos / SEG_L⌋ - (OFFSET_BACK : ℤ)

/-- The segment resolved from raw index `startIdx + k`. -/
def segAt (segments : List Segment) (startIdx : ℤ) (k : ℕ) : Segment :=
  (getSeg segments (resolveIdx segments.length (startIdx + (k : ℤ)))).getD ⟨0, 0⟩

/-- The curvature `c_k` of the segment resolved from raw index `startIdx + k`. -/
def curveAt (segments : List Segment) (startIdx : ℤ) (k : ℕ) : ℚ :=
  (segAt segments startIdx k).curve

/-- The value `relativeZ` of draw slot `n` for a given `offsetZ`. -/
def relZ (offsetZ : ℚ) (n : ℕ) : ℚ :=
  -(((n : ℚ) - (OFFSET_BACK : ℚ)) * SEG_L - offsetZ)

/-- Double integration of the curvatures `c` from drift `dx0` and position `x0`:
`x0 + n * dx0 + sum over m < n of (n - 1 - m) * c m`. -/
def integX (c : ℕ → ℚ) (dx0 x0 : ℚ) (n : ℕ) : ℚ :=
  x0 + (n : ℚ) * dx0 + ∑ m ∈ Finset.range n, ((n : ℚ) - 1 - (m : ℚ)) * c m

/-- The drift after `j` iterations of the seed loop: `sum over i < j of c i`. -/
def seedDx (c : ℕ → ℚ) (j : ℕ) : ℚ := ∑ i ∈ Finset.range j, c i

/-- The position after `j` iterations of the seed loop:
`sum over i < j of (j - i) * c i`. -/
def seedCurrX (c : ℕ → ℚ) (j : ℕ) : ℚ :=
  ∑ i ∈ Finset.range j, ((j : ℚ) - (i : ℚ)) * c i

/-- The frame described by the specification of the projection for the state
`s`: road tile `n` at `(segmentX n, 0, relativeZ n)`, its lane markers and its
pole pair, with `segmentX n` the double integral of the curvatures seeded by the
seed loop, minus `playerX`. -/
def specFrame (s : State) : Frame :=
  let c := curveAt s.segments (startIdxOf s)
  let segmentX := fun n : ℕ =>
    integX c (seedDx c OFFSET_BACK) (seedCurrX c OFFSET_BACK) n - s.playerX
  let z := relZ (jsMod s.pos SEG_L)
  { road := (List.range DRAW_D).map fun n => { slot := n, x := segmentX n, y := 0, z := z n }
    roadColor := (List.range DRAW_D).map fun n =>
      (n, if (segAt s.segments (startIdxOf s) n).color ≠ 0 then 0x080808 else 0x101010)
    lane := (List.range DRAW_D).flatMap fun n => laneWrites n (segmentX n) (z n)
    pole := (List.range DRAW_D).flatMap fun n =>
      poleWrites n (resolveIdx s.segments.length (startIdxOf s + (n : ℤ))) (segmentX n) (z n) }

/-- The random stream that yields 1/2 at its draw number 194 and 0 at every
other draw. -/
def spikeRandom : ℕ → Rand := fun n =>
  if n = 194 then ⟨1 / 2, by norm_num, by norm_num⟩ else ⟨0, le_refl 0, by norm_num⟩

end OutRun

namespace OutRun

/-! ## Vehicle physics: basic facts -/

theorem ROAD_LIMIT_eq : ROAD_LIMIT = 3775 := by
  norm_num [ROAD_LIMIT, ROAD_W, CAR_W_REF]

theorem throttle_nonneg (keys : Keys) (speed : ℚ) (h : 0 ≤ speed) :
    0 ≤ throttle keys speed := by
  unfold throttle
  split_ifs
  · have h1 : (0 : ℚ) < max (6 * (1 - speed / MAX_SPEED)) 0.1 :=
      lt_of_lt_of_le (by norm_num) (le_max_right _ _)
    dsimp only
    linarith
  · exact le_max_right _ _
  · have h2 : (0 : ℚ) ≤ 0.99 := by norm_num
    exact mul_nonneg h h2

@[simp] theorem physics_segments (keys : Keys) (curve : ℚ) (s : State) :
    (physics keys curve s).segments = s.segments := rfl

@[simp] theorem physics_difficulty (keys : Keys) (curve : ℚ) (s : State) :
    (physics keys curve s).difficulty = s.difficulty := rfl

theorem physics_pos (keys : Keys) (curve : ℚ) (s : State) :
    (physics keys curve s).pos = s.pos + (physics keys curve s).speed := rfl

theorem physics_speed_le (keys : Keys) (curve : ℚ) (s : State) :
    (physics keys curve s).speed ≤ MAX_SPEED := by
  show min _ MAX_SPEED ≤ MAX_SPEED
  exact min_le_right _ _

theorem physics_speed_nonneg (keys : Keys) (curve : ℚ) (s : State) (h : 0 ≤ s.speed) :
    0 ≤ (physics keys curve s).speed := by
  have ht := throttle_nonneg keys s.speed h
  show 0 ≤ min _ MAX_SPEED
  refine le_min ?_ (by norm_num [MAX_SPEED])
  split_ifs
  · have h2 : (0 : ℚ) ≤ 0.98 := by norm_num
    exact mul_nonneg ht h2
  · exact ht

theorem physics_playerX_abs_le (keys : Keys) (curve : ℚ) (s : State) :
    |(physics keys curve s).playerX| ≤ ROAD_LIMIT := by
  have hL : (0 : ℚ) ≤ ROAD_LIMIT := by rw [ROAD_LIMIT_eq]; norm_num
  simp only [physics]
  split_ifs with hhit
  · simp only [clamp]
    rw [abs_le]
    constructor
    · exact le_max_left _ _
    · exact max_le (by linarith) (min_le_left _ _)
  · exact le_of_lt (not_le.mp hhit)

theorem physicsRun_append (xs ys : List (Keys × ℚ)) (s : State) :
    physicsRun (xs ++ ys) s = physicsRun ys (physicsRun xs s) := by
  simp [physicsRun, List.foldl_append]

theorem physicsRun_speed (inputs : List (Keys × ℚ)) (s : State)
    (h : 0 ≤ s.speed ∧ s.speed ≤ MAX_SPEED) :
    0 ≤ (physicsRun inputs s).speed ∧ (physicsRun inputs s).speed ≤ MAX_SPEED := by
  induction inputs generalizing s with
  | nil => exact h
  | cons kc rest ih =>
    exact ih (physics kc.1 kc.2 s)
      ⟨physics_speed_nonneg _ _ _ h.1, physics_speed_le _ _ _⟩

theorem physicsRun_playerX (inputs : List (Keys × ℚ)) (s : State)
    (h : |s.playerX| ≤ ROAD_LIMIT) :
    |(physicsRun inputs s).playerX| ≤ ROAD_LIMIT := by
  induction inputs generalizing s with
  | nil => exact h
  | cons kc rest ih =>
    exact ih (physics kc.1 kc.2 s) (physics_playerX_abs_le _ _ _)

end OutRun

namespace OutRun

/-! ## Index resolution and segment reads -/

theorem getSeg_isSome_iff (segments : List Segment) (idx : ℤ) :
    (getSeg segments idx).isSome ↔ (0 ≤ idx ∧ idx < segments.length) := by
  unfold getSeg
  split_ifs with h
  · rw [← Option.ne_none_iff_isSome, Ne, List.getElem?_eq_none_iff]
    constructor
    · intro h1
      exact ⟨h, by omega⟩
    · intro h1
      omega
  · simp [h]

theorem getSeg_some_of_lt (segments : List Segment) (idx : ℤ) (h0 : 0 ≤ idx)
    (h1 : idx < segments.length) : ∃ seg, getSeg segments idx = some seg :=
  Option.isSome_iff_exists.mp ((getSeg_isSome_iff segments idx).mpr ⟨h0, h1⟩)

theorem tmod_wrap_neg (len i : ℤ) (hlen : 0 < len) (hi : i < 0) :
    Int.tmod (len + Int.tmod i len) len = i % len := by
  have h1 : Int.tmod i len = -((-i) % len) := by
    have h3 : Int.tmod (-i) len = (-i) % len := Int.tmod_eq_emod (by omega) hlen.le
    rw [← h3, Int.tmod_def, Int.tmod_def, Int.neg_tdiv]
    ring
  have hx0 : 0 ≤ (-i) % len := Int.emod_nonneg _ hlen.ne'
  have hx1 : (-i) % len < len := Int.emod_lt_of_pos _ hlen
  rw [h1, Int.tmod_eq_emod (by omega) hlen.le]
  apply Int.emod_eq_emod_iff_emod_sub_eq_zero.mpr
  have h4 : len + -((-i) % len) - i = len * (1 + (-i) / len) := by
    have h5 := Int.ediv_add_emod (-i) len
    linarith
  rw [h4]
  exact Int.mul_emod_right _ _

theorem resolveIdx_eq_emod (len i : ℤ) (hlen : 0 < len) : resolveIdx len i = i % len := by
  unfold resolveIdx
  split_ifs with hi
  · exact tmod_wrap_neg len i hlen hi
  · exact Int.tmod_eq_emod (by omega) hlen.le

theorem resolveIdx_nonneg (len i : ℤ) (hlen : 0 < len) : 0 ≤ resolveIdx len i := by
  rw [resolveIdx_eq_emod len i hlen]
  exact Int.emod_nonneg _ hlen.ne'

theorem resolveIdx_lt (len i : ℤ) (hlen : 0 < len) : resolveIdx len i < len := by
  rw [resolveIdx_eq_emod len i hlen]
  exact Int.emod_lt_of_pos _ hlen

theorem specWrap_eq_emod (len i : ℤ) (hlen : 0 < len) : specWrap len i = i % len := by
  unfold specWrap
  by_cases hi : i < 0
  · exact tmod_wrap_neg len i hlen hi
  · have h0 : 0 ≤ i := by omega
    have h1 : Int.tmod i len = i % len := Int.tmod_eq_emod h0 hlen.le
    have hx0 : 0 ≤ i % len := Int.emod_nonneg _ hlen.ne'
    rw [h1, Int.tmod_eq_emod (by omega) hlen.le, Int.add_emod_self_left]
    exact Int.emod_emod_of_dvd _ (dvd_refl _)

end OutRun

namespace OutRun

/-! ## The track generator: closed form of a chunk -/

/-- The segment pushed by `addRoadChunk(len, curve)` for loop counter `i` when
the store held `base` segments before the call. -/
theorem addRoadChunk_loop (len : ℕ) (curve : ℚ) (segments : List Segment) (n : ℕ) :
    (List.range n).foldl (addRoadChunkStep len curve) segments =
      segments ++ (List.range n).map fun i =>
        { curve := curve * rampP len i, color := ((segments.length + i) / 3) % 2 } := by
  induction n with
  | zero => simp
  | succ n ih =>
    rw [List.range_succ, List.foldl_append, ih]
    simp [addRoadChunkStep]

theorem addRoadChunk_eq (len : ℕ) (curve : ℚ) (segments : List Segment) :
    addRoadChunk len curve segments =
      segments ++ (List.range len).map fun i =>
        { curve := curve * rampP len i, color := ((segments.length + i) / 3) % 2 } :=
  addRoadChunk_loop len curve segments len

@[simp] theorem addRoadChunk_length (len : ℕ) (curve : ℚ) (segments : List Segment) :
    (addRoadChunk len curve segments).length = segments.length + len := by
  simp [addRoadChunk_eq]

theorem addRoadChunk_getElem?_new (len : ℕ) (curve : ℚ) (segments : List Segment)
    (i : ℕ) (hi : i < len) :
    (addRoadChunk len curve segments)[segments.length + i]? =
      some { curve := curve * rampP len i, color := ((segments.length + i) / 3) % 2 } := by
  rw [addRoadChunk_eq, List.getElem?_append_right (Nat.le_add_right _ _)]
  simp [hi]

theorem addRoadChunk_getElem?_old (len : ℕ) (curve : ℚ) (segments : List Segment)
    (i : ℕ) (hi : i < segments.length) :
    (addRoadChunk len curve segments)[i]? = segments[i]? := by
  rw [addRoadChunk_eq, List.getElem?_append_left hi]

/-! ## The track generator: `generateTrack` -/

theorem chunkLen_le (r : Rand) : ⌊r.val * 300⌋.toNat ≤ 299 := by
  have h1 : ⌊r.val * 300⌋ < 300 := by
    rw [Int.floor_lt]
    have := r.lt_one
    push_cast
    linarith
  omega

theorem generateTrackLoop_of_ge (random : ℕ → Rand) (fuel : ℕ) (s : State)
    (h : 20000 ≤ s.segments.length) : generateTrackLoop random fuel s = s := by
  cases fuel with
  | zero => rfl
  | succ fuel => simp [generateTrackLoop, Nat.not_lt.mpr h]

theorem generateTrack_of_ge (random : ℕ → Rand) (s : State)
    (h : 20000 ≤ s.segments.length) : generateTrack random s = s :=
  generateTrackLoop_of_ge random 100 s h

/-- Induction principle for what `generateTrack` does to the store: a property
of the store kept by every chunk of 200..499 segments is kept by the loop. -/
theorem generateTrackLoop_segments (random : ℕ → Rand) (P : List Segment → Prop)
    (hP : ∀ (len : ℕ) (curve : ℚ) (segs : List Segment), segs.length < 20000 →
      200 ≤ len → len ≤ 499 → P segs → P (addRoadChunk len curve segs))
    (fuel : ℕ) (s : State) (h : P s.segments) :
    P (generateTrackLoop random fuel s).segments := by
  induction fuel generalizing s with
  | zero => exact h
  | succ fuel ih =>
    simp only [generateTrackLoop]
    have hlen := chunkLen_le (random (s.rng + 1))
    by_cases h1 : s.segments.length < 20000
    · rw [if_pos h1]
      split_ifs <;> exact ih _ (hP _ _ _ h1 (by omega) (by omega) h)
    · rw [if_neg h1]
      exact h

theorem generateTrackLoop_length_ge (random : ℕ → Rand) (fuel : ℕ) (s : State)
    (h : 20000 ≤ s.segments.length + 200 * fuel) :
    20000 ≤ (generateTrackLoop random fuel s).segments.length := by
  induction fuel generalizing s with
  | zero => simpa using h
  | succ fuel ih =>
    simp only [generateTrackLoop]
    by_cases h1 : s.segments.length < 20000
    · rw [if_pos h1]
      split_ifs <;>
      · apply ih
        simp only [addRoadChunk_length]
        omega
    · rw [if_neg h1]
      omega

theorem generateTrack_length_ge (random : ℕ → Rand) (s : State) :
    20000 ≤ (generateTrack random s).segments.length :=
  generateTrackLoop_length_ge random 100 s (by omega)

theorem generateTrack_length_le (random : ℕ → Rand) (s : State)
    (h : s.segments.length ≤ 20498) :
    (generateTrack random s).segments.length ≤ 20498 := by
  refine generateTrackLoop_segments random (fun segs => segs.length ≤ 20498) ?_ 100 s h
  intro len curve segs h1 _ h3 _
  simp only [addRoadChunk_length]
  omega

end OutRun

namespace OutRun

/-! ## The frame loop: every read succeeds and the invariant is kept -/

theorem generateTrackLoop_vehicle (random : ℕ → Rand) (fuel : ℕ) (s : State) :
    (generateTrackLoop random fuel s).pos = s.pos ∧
      (generateTrackLoop random fuel s).playerX = s.playerX ∧
      (generateTrackLoop random fuel s).speed = s.speed := by
  induction fuel generalizing s with
  | zero => exact ⟨rfl, rfl, rfl⟩
  | succ fuel ih =>
    simp only [generateTrackLoop]
    split_ifs
    · exact ih _
    · exact ih _
    · exact ih _
    · exact ⟨rfl, rfl, rfl⟩

theorem foldlM_isSome {α β : Type} (f : β → α → Option β) (l : List α)
    (h : ∀ b a, a ∈ l → (f b a).isSome) (b : β) : (l.foldlM f b).isSome := by
  induction l generalizing b with
  | nil => rfl
  | cons a l ih =>
    rw [List.foldlM_cons]
    obtain ⟨b1, hb1⟩ := Option.isSome_iff_exists.mp (h b a (List.mem_cons_self _ _))
    rw [hb1]
    exact ih (fun b a ha => h b a (List.mem_cons_of_mem _ ha)) b1

theorem getSeg_resolveIdx_isSome (segments : List Segment) (idxRaw : ℤ)
    (h : 0 < segments.length) :
    (getSeg segments (resolveIdx segments.length idxRaw)).isSome := by
  have hl : (0 : ℤ) < segments.length := by exact_mod_cast h
  exact (getSeg_isSome_iff _ _).mpr ⟨resolveIdx_nonneg _ _ hl, resolveIdx_lt _ _ hl⟩

theorem render_isSome (s : State) (h : 0 < s.segments.length) : (render s).isSome := by
  unfold render
  have h1 := foldlM_isSome (seedStep s.segments (⌊s.pos / SEG_L⌋ - (OFFSET_BACK : ℤ)))
    (List.range OFFSET_BACK)
    (fun b a _ => by
      simp only [seedStep, Option.isSome_map']
      exact getSeg_resolveIdx_isSome _ _ h) ((0, 0) : ℚ × ℚ)
  obtain ⟨acc, hacc⟩ := Option.isSome_iff_exists.mp h1
  simp only [hacc, Option.some_bind, Option.isSome_map']
  exact foldlM_isSome _ _ (fun b a _ => by
      simp only [drawStep, Option.isSome_map']
      exact getSeg_resolveIdx_isSome _ _ h) _

theorem floor_pos_nonneg (pos : ℚ) (h : 0 ≤ pos) : (0 : ℤ) ≤ ⌊pos / SEG_L⌋ := by
  apply Int.floor_nonneg.mpr
  exact div_nonneg h (by norm_num [SEG_L])

theorem currentCurve_isSome (s : State) (h : 0 < s.segments.length) (hpos : 0 ≤ s.pos) :
    (currentCurve s).isSome := by
  unfold currentCurve
  have hl : (0 : ℤ) < s.segments.length := by exact_mod_cast h
  simp only [Option.isSome_map']
  exact (getSeg_isSome_iff _ _).mpr
    ⟨Int.tmod_nonneg _ (floor_pos_nonneg _ hpos), Int.tmod_lt_of_pos _ hl⟩

theorem lookahead_of_ge (random : ℕ → Rand) (s : State) (h : 20000 ≤ s.segments.length) :
    lookahead random s = s := by
  simp only [lookahead]
  split_ifs
  · exact generateTrack_of_ge random s h
  · rfl

/-- One frame from a state satisfying the invariant: `animate` returns, the
result is the physics step applied at the curvature read from the store, the
store is unchanged and the invariant holds again. -/
theorem animate_of_Inv (random : ℕ → Rand) (keys : Keys) (s : State) (h : Inv s) :
    ∃ curve frame, currentCurve s = some curve ∧
      animate random keys s = some (physics keys curve s, frame) ∧
      Inv (physics keys curve s) := by
  obtain ⟨h1, h2, h3, h4, h5, h6⟩ := h
  obtain ⟨curve, hc⟩ := Option.isSome_iff_exists.mp (currentCurve_isSome s (by omega) h3)
  have hr : (render (physics keys curve s)).isSome :=
    render_isSome _ (by rw [physics_segments]; omega)
  obtain ⟨frame, hf⟩ := Option.isSome_iff_exists.mp hr
  refine ⟨curve, frame, hc, ?_, ?_⟩
  · unfold animate
    simp only [lookahead_of_ge random s h1, hc, Option.some_bind, hf, Option.map_some']
  · have hs := physics_speed_nonneg keys curve s h4
    refine ⟨by rw [physics_segments]; exact h1, by rw [physics_segments]; exact h2, ?_, hs,
      physics_speed_le _ _ _, physics_playerX_abs_le _ _ _⟩
    rw [physics_pos]
    linarith

theorem initial_Inv (random : ℕ → Rand) : Inv (initial random) := by
  have hv := generateTrackLoop_vehicle random 100
    { segments := addRoadChunk 500 0 [], difficulty := 1.0, rng := 0,
      pos := 0, playerX := 0, speed := 0, carRotationY := 0, shakeAmount := 0 }
  refine ⟨generateTrack_length_ge random _, generateTrack_length_le random _ ?_, ?_, ?_, ?_, ?_⟩
  · simp
  all_goals unfold initial generateTrack
  · rw [hv.1]
  · rw [hv.2.2]
  · rw [hv.2.2]
    norm_num [MAX_SPEED]
  · rw [hv.2.1, ROAD_LIMIT_eq]
    norm_num

theorem ticks_of_Inv (random : ℕ → Rand) (ks : List Keys) (s : State) (h : Inv s) :
    ∃ s1, ticks random ks s = some s1 ∧ Inv s1 ∧ s1.segments = s.segments := by
  induction ks generalizing s with
  | nil => exact ⟨s, rfl, h, rfl⟩
  | cons keys ks ih =>
    obtain ⟨curve, frame, _, ha, hi⟩ := animate_of_Inv random keys s h
    obtain ⟨s1, hs1, hi1, hseg⟩ := ih (physics keys curve s) hi
    refine ⟨s1, ?_, hi1, by rw [hseg, physics_segments]⟩
    simp only [ticks, ha, Option.some_bind]
    exact hs1

theorem run_Inv (random : ℕ → Rand) (ks : List Keys) :
    ∃ s, run random ks = some s ∧ Inv s ∧ s.segments = (initial random).segments :=
  ticks_of_Inv random ks (initial random) (initial_Inv random)

end OutRun

namespace OutRun

/-! ## The ramp of a chunk and the colour banding -/

theorem rampP_head (len i : ℕ) (h1 : i < 50) (h2 : i + 50 ≤ len) :
    rampP len i = (i : ℚ) / 50 := by
  simp only [rampP]
  have h3 : ¬ (i : ℤ) > (len : ℤ) - 50 := by omega
  rw [if_neg h3, if_pos h1]

theorem rampP_mid (len i : ℕ) (h1 : 50 ≤ i) (h2 : i + 50 ≤ len) : rampP len i = 1 := by
  simp only [rampP]
  have h3 : ¬ (i : ℤ) > (len : ℤ) - 50 := by omega
  rw [if_neg h3, if_neg (by omega)]

theorem rampP_tail (len i : ℕ) (h1 : len < i + 50) :
    rampP len i = ((len : ℚ) - (i : ℚ)) / 50 := by
  simp only [rampP]
  have h3 : (i : ℤ) > (len : ℤ) - 50 := by omega
  rw [if_pos h3]

theorem addRoadChunk_curve (len : ℕ) (curve : ℚ) (segments : List Segment)
    (i : ℕ) (hi : i < len) :
    ∃ seg, (addRoadChunk len curve segments)[segments.length + i]? = some seg ∧
      seg.curve = curve * rampP len i :=
  ⟨_, addRoadChunk_getElem?_new len curve segments i hi, rfl⟩

theorem bandColors_add (a b : ℕ) :
    bandColors (a + b) = bandColors a ++ (List.range b).map fun i => ((a + i) / 3) % 2 := by
  simp [bandColors, List.range_add, List.map_append, List.map_map, Function.comp_def]

theorem addRoadChunk_colors (len : ℕ) (curve : ℚ) (segments : List Segment)
    (h : segments.map Segment.color = bandColors segments.length) :
    (addRoadChunk len curve segments).map Segment.color =
      bandColors (addRoadChunk len curve segments).length := by
  rw [addRoadChunk_length, bandColors_add, addRoadChunk_eq, List.map_append, h]
  simp [List.map_map, Function.comp_def]

theorem generateTrack_colors (random : ℕ → Rand) (s : State)
    (h : s.segments.map Segment.color = bandColors s.segments.length) :
    (generateTrack random s).segments.map Segment.color =
      bandColors (generateTrack random s).segments.length :=
  generateTrackLoop_segments random
    (fun segs => segs.map Segment.color = bandColors segs.length)
    (fun len curve segs _ _ _ hs => addRoadChunk_colors len curve segs hs) 100 s h

theorem applyCalls_colors (calls : List GenCall) (s : State)
    (h : s.segments.map Segment.color = bandColors s.segments.length) :
    (applyCalls calls s).segments.map Segment.color =
      bandColors (applyCalls calls s).segments.length := by
  induction calls generalizing s with
  | nil => exact h
  | cons c calls ih =>
    apply ih
    cases c with
    | addRoadChunk len curve => exact addRoadChunk_colors len curve s.segments h
    | generateTrack random => exact generateTrack_colors random s h

theorem initial_colors (random : ℕ → Rand) :
    (initial random).segments.map Segment.color =
      bandColors (initial random).segments.length := by
  have h : ([] : List Segment).map Segment.color = bandColors ([] : List Segment).length := by
    simp [bandColors]
  have h1 := addRoadChunk_colors 500 0 [] h
  unfold initial
  apply generateTrack_colors random
  dsimp only
  exact h1

theorem bandColors_getElem? (n i : ℕ) (h : i < n) : (bandColors n)[i]? = some ((i / 3) % 2) := by
  simp [bandColors, h]

end OutRun

namespace OutRun

/-! ## The iteration budget of `generateTrack` is never exhausted -/

theorem generateTrackLoop_budget (random : ℕ → Rand) (fuel k : ℕ) (s : State)
    (h : 20000 ≤ s.segments.length + 200 * fuel) :
    generateTrackLoop random (fuel + k) s = generateTrackLoop random fuel s := by
  induction fuel generalizing s with
  | zero =>
    rw [generateTrackLoop_of_ge random _ s (by omega), generateTrackLoop_of_ge random _ s (by omega)]
  | succ fuel ih =>
    have hk : fuel + 1 + k = (fuel + k) + 1 := by omega
    rw [hk]
    simp only [generateTrackLoop]
    by_cases h1 : s.segments.length < 20000
    · rw [if_pos h1, if_pos h1]
      split_ifs <;>
      · apply ih
        simp only [addRoadChunk_length]
        omega
    · rw [if_neg h1, if_neg h1]

/-! ## A drive along an all-straight track -/

theorem getSeg_mem (segments : List Segment) (idx : ℤ) (seg : Segment)
    (h : getSeg segments idx = some seg) : seg ∈ segments := by
  unfold getSeg at h
  split_ifs at h
  exact List.getElem?_mem h

theorem addRoadChunk_straight (len : ℕ) (segments : List Segment)
    (h : ∀ seg ∈ segments, seg.curve = 0) :
    ∀ seg ∈ addRoadChunk len 0 segments, seg.curve = 0 := by
  intro seg hseg
  rw [addRoadChunk_eq, List.mem_append] at hseg
  rcases hseg with hseg | hseg
  · exact h seg hseg
  · rw [List.mem_map] at hseg
    obtain ⟨i, _, rfl⟩ := hseg
    exact zero_mul _

theorem generateTrackLoop_zeroRandom (fuel : ℕ) (s : State)
    (h : ∀ seg ∈ s.segments, seg.curve = 0) :
    ∀ seg ∈ (generateTrackLoop zeroRandom fuel s).segments, seg.curve = 0 := by
  induction fuel generalizing s with
  | zero => exact h
  | succ fuel ih =>
    simp only [generateTrackLoop]
    have h0 : (zeroRandom s.rng).val < 0.3 := by
      show (0 : ℚ) < 0.3
      norm_num
    by_cases h1 : s.segments.length < 20000
    · rw [if_pos h1, if_pos h0]
      exact ih _ (addRoadChunk_straight _ _ h)
    · rw [if_neg h1]
      exact h

theorem initial_zeroRandom_straight :
    ∀ seg ∈ (initial zeroRandom).segments, seg.curve = 0 := by
  have h : ∀ seg ∈ ([] : List Segment), seg.curve = 0 := by
    intro seg hseg
    cases hseg
  have h1 := addRoadChunk_straight 500 [] h
  unfold initial generateTrack
  apply generateTrackLoop_zeroRandom
  dsimp only
  exact h1

theorem currentCurve_straight (s : State) (curve : ℚ)
    (h : ∀ seg ∈ s.segments, seg.curve = 0) (hc : currentCurve s = some curve) :
    curve = 0 := by
  simp only [currentCurve, Option.map_eq_some'] at hc
  obtain ⟨seg, hseg, rfl⟩ := hc
  exact h seg (getSeg_mem _ _ _ hseg)

/-- One frame with only the accelerate key held, on curvature 0 and with
`playerX = 0`: the lateral offset stays 0 and speed gains at least 0.1 up to the
clamp. -/
theorem physics_upKey_straight (s : State) (hx : s.playerX = 0) :
    (physics upKey 0 s).playerX = 0 ∧
      min (s.speed + 0.1) MAX_SPEED ≤ (physics upKey 0 s).speed := by
  have hL : ¬ |(0 : ℚ)| ≥ ROAD_LIMIT := by
    rw [ROAD_LIMIT_eq]
    norm_num
  have hpx : s.playerX + (-0 * (throttle upKey s.speed / 200) +
      (steering upKey (throttle upKey s.speed)).1 * (throttle upKey s.speed / 12)) = 0 := by
    have hs : (steering upKey (throttle upKey s.speed)).1 = 0 := by
      simp [steering, upKey]
    rw [hs, hx]
    ring
  constructor
  · simp only [physics, hpx, if_neg hL]
  · simp only [physics, hpx, if_neg hL]
    apply min_le_min_right
    simp only [throttle, upKey, if_true]
    have := le_max_right (6 * (1 - s.speed / MAX_SPEED)) (0.1 : ℚ)
    linarith

/-- Invariant of the all-straight drive after `n` frames of acceleration. -/
theorem straight_drive (random : ℕ → Rand) (n m : ℕ) (s : State) (hI : Inv s)
    (hz : ∀ seg ∈ s.segments, seg.curve = 0) (hx : s.playerX = 0)
    (hv : min ((m : ℚ) / 10) MAX_SPEED ≤ s.speed)
    (hp : MAX_SPEED * ((m : ℚ) - 4200) ≤ s.pos) :
    ∃ s1, ticks random (List.replicate n upKey) s = some s1 ∧ Inv s1 ∧
      MAX_SPEED * (((m + n : ℕ) : ℚ) - 4200) ≤ s1.pos := by
  induction n generalizing m s with
  | zero => exact ⟨s, rfl, hI, by simpa using hp⟩
  | succ n ih =>
    obtain ⟨curve, frame, hc, ha, hI1⟩ := animate_of_Inv random upKey s hI
    have hc0 : curve = 0 := currentCurve_straight s curve hz hc
    subst hc0
    obtain ⟨hx1, hv1⟩ := physics_upKey_straight s hx
    have hle := physics_speed_le upKey 0 s
    have hv2 : min (((m + 1 : ℕ) : ℚ) / 10) MAX_SPEED ≤ (physics upKey 0 s).speed := by
      refine le_trans ?_ hv1
      apply le_min
      · rcases le_total ((m : ℚ) / 10) MAX_SPEED with h1 | h1
        · rw [min_eq_left h1] at hv
          refine le_trans (min_le_left _ _) ?_
          push_cast
          linarith
        · rw [min_eq_right h1] at hv
          refine le_trans (min_le_right _ _) ?_
          linarith
      · exact min_le_right _ _
    have hp2 : MAX_SPEED * (((m + 1 : ℕ) : ℚ) - 4200) ≤ (physics upKey 0 s).pos := by
      rw [physics_pos]
      rcases le_total (((m + 1 : ℕ) : ℚ) / 10) MAX_SPEED with h1 | h1
      · have h2 : MAX_SPEED * (((m + 1 : ℕ) : ℚ) - 4200) ≤ 0 := by
          simp only [MAX_SPEED] at h1 ⊢
          linarith
        have h3 := hI.2.2.1
        have h4 := hI1.2.2.2.1
        linarith
      · rw [min_eq_right h1] at hv2
        push_cast at hp ⊢
        linarith
    obtain ⟨s1, hs1, hI2, hp3⟩ := ih (m + 1) (physics upKey 0 s) hI1
      (by rw [physics_segments]; exact hz) hx1 hv2 hp2
    refine ⟨s1, ?_, hI2, ?_⟩
    · simp only [List.replicate_succ, ticks, ha, Option.some_bind]
      exact hs1
    · have he : m + (n + 1) = m + 1 + n := by omega
      rw [he]
      exact hp3

theorem initial_vehicle (random : ℕ → Rand) :
    (initial random).pos = 0 ∧ (initial random).playerX = 0 ∧ (initial random).speed = 0 := by
  have hv := generateTrackLoop_vehicle random 100
    { segments := addRoadChunk 500 0 [], difficulty := 1.0, rng := 0,
      pos := 0, playerX := 0, speed := 0, carRotationY := 0, shakeAmount := 0 }
  unfold initial generateTrack
  exact hv

end OutRun

namespace OutRun

/-! ## Claims -/

/-- C1 (speed bounds): from module start-up, after every sequence of frames and
under every sequence of key states, `animate` returns and `0 ≤ speed ≤ MAX_SPEED`
with `MAX_SPEED = 420`; the same holds for the physics step iterated from any
state with `speed = 0` under arbitrary key states and arbitrary curvatures. -/
theorem speed_bounds (random : ℕ → Rand) (ks : List Keys) (inputs : List (Keys × ℚ))
    (s0 : State) (h0 : s0.speed = 0) :
    (∃ s, run random ks = some s ∧ 0 ≤ s.speed ∧ s.speed ≤ MAX_SPEED) ∧
      (0 ≤ (physicsRun inputs s0).speed ∧ (physicsRun inputs s0).speed ≤ MAX_SPEED) ∧
      MAX_SPEED = 420 := by
  refine ⟨?_, ?_, rfl⟩
  · obtain ⟨s, hs, hi, _⟩ := run_Inv random ks
    exact ⟨s, hs, hi.2.2.2.1, hi.2.2.2.2.1⟩
  · apply physicsRun_speed
    rw [h0]
    norm_num [MAX_SPEED]

/-- Witness for C1: two accelerating frames from start-up, and two physics steps
on curvatures 3 and -2. -/
theorem speed_bounds_witness :
    start.speed = 0 ∧
      ((∃ s, run zeroRandom [upKey, upKey] = some s ∧ 0 ≤ s.speed ∧ s.speed ≤ MAX_SPEED) ∧
        (0 ≤ (physicsRun [(upKey, 3), (upKey, -2)] start).speed ∧
          (physicsRun [(upKey, 3), (upKey, -2)] start).speed ≤ MAX_SPEED) ∧
        MAX_SPEED = 420) :=
  ⟨rfl, speed_bounds zeroRandom [upKey, upKey] [(upKey, 3), (upKey, -2)] start rfl⟩

/-- C2 (lateral bounds): from module start-up, after every sequence of frames and
under every sequence of key states, `|playerX| ≤ ROAD_LIMIT` with
`ROAD_LIMIT = 3775`; the same holds for the physics step iterated from any state
with `playerX = 0` under arbitrary key states and arbitrary curvatures. -/
theorem lateral_bounds (random : ℕ → Rand) (ks : List Keys) (inputs : List (Keys × ℚ))
    (s0 : State) (h0 : s0.playerX = 0) :
    (∃ s, run random ks = some s ∧ |s.playerX| ≤ ROAD_LIMIT) ∧
      |(physicsRun inputs s0).playerX| ≤ ROAD_LIMIT ∧
      ROAD_LIMIT = ROAD_W / 2 - CAR_W_REF / 2 - 100 ∧ ROAD_LIMIT = 3775 := by
  refine ⟨?_, ?_, rfl, ROAD_LIMIT_eq⟩
  · obtain ⟨s, hs, hi, _⟩ := run_Inv random ks
    exact ⟨s, hs, hi.2.2.2.2.2⟩
  · apply physicsRun_playerX
    rw [h0, ROAD_LIMIT_eq]
    norm_num

/-- Witness for C2: one accelerating frame from start-up, and two physics steps
on curvature 3. -/
theorem lateral_bounds_witness :
    start.playerX = 0 ∧
      ((∃ s, run zeroRandom [upKey] = some s ∧ |s.playerX| ≤ ROAD_LIMIT) ∧
        |(physicsRun [(upKey, 3), (upKey, 3)] start).playerX| ≤ ROAD_LIMIT ∧
        ROAD_LIMIT = ROAD_W / 2 - CAR_W_REF / 2 - 100 ∧ ROAD_LIMIT = 3775) :=
  ⟨rfl, lateral_bounds zeroRandom [upKey] [(upKey, 3), (upKey, 3)] start rfl⟩

/-- C3 (store wrap correctness): for a store length `len > 0`, every integer raw
index `i` and every integer `k`, the index resolution of the projection loops
sends `i` and `i + k * len` to the same index, that index lies in `0 .. len-1`,
and it is the index given by the rule `(len + (i % len)) % len` of the
specification (all `%` truncating as in JavaScript). -/
theorem store_wrap (len i k : ℤ) (hlen : 0 < len) :
    resolveIdx len (i + k * len) = resolveIdx len i ∧
      resolveIdx len i = specWrap len i ∧
      0 ≤ resolveIdx len i ∧ resolveIdx len i < len := by
  refine ⟨?_, ?_, resolveIdx_nonneg len i hlen, resolveIdx_lt len i hlen⟩
  · rw [resolveIdx_eq_emod _ _ hlen, resolveIdx_eq_emod _ _ hlen]
    exact Int.add_mul_emod_self
  · rw [resolveIdx_eq_emod _ _ hlen, specWrap_eq_emod _ _ hlen]

/-- Witness for C3: store length 7, raw index -15, shift by 3 store lengths. -/
theorem store_wrap_witness :
    (0 : ℤ) < 7 ∧
      (resolveIdx 7 (-15 + 3 * 7) = resolveIdx 7 (-15) ∧
        resolveIdx 7 (-15) = specWrap 7 (-15) ∧
        0 ≤ resolveIdx 7 (-15) ∧ resolveIdx 7 (-15) < 7) :=
  ⟨by decide, store_wrap 7 (-15) 3 (by decide)⟩

/-- C4 (no store lookup can fail): the store is non-empty after start-up; in
every state reached from start-up the store is non-empty and the next call of
`animate` returns for every key state, i.e. none of its segment reads is out of
range.  A read `segments[idx]` succeeds exactly when `0 ≤ idx < segments.length`;
the index of the curvature read and every index resolved by the seed and draw
loops (for any raw index, negative ones included) lie in that range. -/
theorem no_lookup_fails (random : ℕ → Rand) (ks : List Keys) (keys : Keys) :
    0 < (initial random).segments.length ∧
      (∀ (segments : List Segment) (idx : ℤ),
        (getSeg segments idx).isSome ↔ (0 ≤ idx ∧ idx < segments.length)) ∧
      ∃ s, run random ks = some s ∧ 0 < s.segments.length ∧
        (animate random keys s).isSome ∧
        (0 ≤ Int.tmod ⌊(lookahead random s).pos / SEG_L⌋ (lookahead random s).segments.length ∧
          Int.tmod ⌊(lookahead random s).pos / SEG_L⌋ (lookahead random s).segments.length
            < (lookahead random s).segments.length) ∧
        ∀ idxRaw : ℤ,
          0 ≤ resolveIdx (lookahead random s).segments.length idxRaw ∧
            resolveIdx (lookahead random s).segments.length idxRaw
              < (lookahead random s).segments.length := by
  have h0 := (initial_Inv random).1
  obtain ⟨s, hs, hi, _⟩ := run_Inv random ks
  have hla := lookahead_of_ge random s hi.1
  have hl : (0 : ℤ) < s.segments.length := by
    have := hi.1
    omega
  obtain ⟨curve, frame, _, ha, _⟩ := animate_of_Inv random keys s hi
  refine ⟨by omega, getSeg_isSome_iff, s, hs, by have := hi.1; omega, ?_, ?_, ?_⟩
  · rw [ha]
    rfl
  · rw [hla]
    exact ⟨Int.tmod_nonneg _ (floor_pos_nonneg _ hi.2.2.1), Int.tmod_lt_of_pos _ hl⟩
  · intro idxRaw
    rw [hla]
    exact ⟨resolveIdx_nonneg _ _ hl, resolveIdx_lt _ _ hl⟩

end OutRun

namespace OutRun

/-- C5, counterexample: the chunk appended by `addRoadChunk(200, 50)` to the empty
store ends with a segment of curvature 1, not 0. -/
theorem chunk_last_curve_nonzero :
    ∃ seg, (addRoadChunk 200 50 []).getLast? = some seg ∧ seg.curve = 1 ∧ seg.curve ≠ 0 := by
  have h := addRoadChunk_getElem?_new 200 50 [] 199 (by norm_num)
  have hc : (50 : ℚ) * rampP 200 199 = 1 := by
    rw [rampP_tail 200 199 (by norm_num)]
    norm_num
  have hl : (addRoadChunk 200 50 []).getLast? =
      (addRoadChunk 200 50 [])[([] : List Segment).length + 199]? := by
    rw [List.getLast?_eq_getElem?, addRoadChunk_length]
    rfl
  rw [hl, h]
  refine ⟨_, rfl, hc, ?_⟩
  show (50 : ℚ) * rampP 200 199 ≠ 0
  rw [hc]
  norm_num

/-- C5, amended: for every chunk appended by `addRoadChunk(len, curve)` with
`200 ≤ len ≤ 500` and every `curve`, the first segment of the chunk has
curvature 0 and the last segment of the chunk (which is the last segment of the
store) has curvature `curve / 50`. -/
theorem chunk_ends (segments : List Segment) (len : ℕ) (curve : ℚ)
    (h1 : 200 ≤ len) (h2 : len ≤ 500) :
    ∃ first last,
      (addRoadChunk len curve segments)[segments.length]? = some first ∧ first.curve = 0 ∧
      (addRoadChunk len curve segments)[segments.length + (len - 1)]? = some last ∧
      (addRoadChunk len curve segments).getLast? = some last ∧
      last.curve = curve / 50 := by
  have hf := addRoadChunk_getElem?_new len curve segments 0 (by omega)
  have hl := addRoadChunk_getElem?_new len curve segments (len - 1) (by omega)
  refine ⟨_, _, hf, ?_, hl, ?_, ?_⟩
  · rw [rampP_head len 0 (by norm_num) (by omega)]
    norm_num
  · rw [List.getLast?_eq_getElem?, addRoadChunk_length]
    have h3 : segments.length + len - 1 = segments.length + (len - 1) := by omega
    rw [h3]
    exact hl
  · rw [rampP_tail len (len - 1) (by omega), Nat.cast_sub (by omega)]
    push_cast
    ring

/-- Witness for C5 as amended: a chunk of 200 segments with curve 50 appended to
the empty store. -/
theorem chunk_ends_witness :
    200 ≤ 200 ∧ 200 ≤ 500 ∧
      ∃ first last,
        (addRoadChunk 200 50 [])[([] : List Segment).length]? = some first ∧ first.curve = 0 ∧
        (addRoadChunk 200 50 [])[([] : List Segment).length + (200 - 1)]? = some last ∧
        (addRoadChunk 200 50 []).getLast? = some last ∧
        last.curve = 50 / 50 :=
  ⟨by decide, by decide, chunk_ends [] 200 50 (by decide) (by decide)⟩

/-- C6 (ease-in / ease-out ramp): for every chunk appended by
`addRoadChunk(len, curve)` with `len ≥ 100`, the magnitude of the curvature is
non-decreasing over the first 50 segments of the chunk, non-increasing over its
last 50 segments, and equal to `|curve|` on every segment in between. -/
theorem chunk_ramp (segments : List Segment) (len : ℕ) (curve : ℚ) (hlen : 100 ≤ len) :
    (∀ i j, i ≤ j → j < 50 → ∃ a b,
        (addRoadChunk len curve segments)[segments.length + i]? = some a ∧
        (addRoadChunk len curve segments)[segments.length + j]? = some b ∧
        |a.curve| ≤ |b.curve|) ∧
      (∀ i j, len - 50 ≤ i → i ≤ j → j < len → ∃ a b,
        (addRoadChunk len curve segments)[segments.length + i]? = some a ∧
        (addRoadChunk len curve segments)[segments.length + j]? = some b ∧
        |b.curve| ≤ |a.curve|) ∧
      (∀ i, 50 ≤ i → i < len - 50 → ∃ a,
        (addRoadChunk len curve segments)[segments.length + i]? = some a ∧
        |a.curve| = |curve|) := by
  refine ⟨?_, ?_, ?_⟩
  · intro i j hij hj
    refine ⟨_, _, addRoadChunk_getElem?_new len curve segments i (by omega),
      addRoadChunk_getElem?_new len curve segments j (by omega), ?_⟩
    simp only [abs_mul]
    apply mul_le_mul_of_nonneg_left _ (abs_nonneg curve)
    rw [rampP_head len i (by omega) (by omega), rampP_head len j hj (by omega)]
    have hc : (i : ℚ) ≤ (j : ℚ) := by exact_mod_cast hij
    have hi0 : (0 : ℚ) ≤ (i : ℚ) := Nat.cast_nonneg i
    rw [abs_of_nonneg (by positivity), abs_of_nonneg (by positivity)]
    linarith
  · intro i j hi hij hj
    refine ⟨_, _, addRoadChunk_getElem?_new len curve segments i (by omega),
      addRoadChunk_getElem?_new len curve segments j (by omega), ?_⟩
    simp only [abs_mul]
    apply mul_le_mul_of_nonneg_left _ (abs_nonneg curve)
    have hc : (i : ℚ) ≤ (j : ℚ) := by exact_mod_cast hij
    have hjl : (j : ℚ) ≤ (len : ℚ) := by exact_mod_cast hj.le
    have hpi : rampP len i = ((len : ℚ) - (i : ℚ)) / 50 := by
      by_cases hie : i + 50 = len
      · rw [rampP_mid len i (by omega) (by omega)]
        have hq : (len : ℚ) = (i : ℚ) + 50 := by exact_mod_cast hie.symm
        rw [hq]
        norm_num
      · exact rampP_tail len i (by omega)
    have hpj : rampP len j = ((len : ℚ) - (j : ℚ)) / 50 := by
      by_cases hje : j + 50 = len
      · rw [rampP_mid len j (by omega) (by omega)]
        have hq : (len : ℚ) = (j : ℚ) + 50 := by exact_mod_cast hje.symm
        rw [hq]
        norm_num
      · exact rampP_tail len j (by omega)
    rw [hpi, hpj, abs_of_nonneg (by linarith), abs_of_nonneg (by linarith)]
    linarith
  · intro i hi1 hi2
    refine ⟨_, addRoadChunk_getElem?_new len curve segments i (by omega), ?_⟩
    simp only [rampP_mid len i hi1 (by omega), mul_one]

/-- Witness for C6: a chunk of 200 segments with curve 3 appended to the empty
store. -/
theorem chunk_ramp_witness :
    100 ≤ 200 ∧
      ((∀ i j, i ≤ j → j < 50 → ∃ a b,
        (addRoadChunk 200 3 [])[([] : List Segment).length + i]? = some a ∧
        (addRoadChunk 200 3 [])[([] : List Segment).length + j]? = some b ∧
        |a.curve| ≤ |b.curve|) ∧
      (∀ i j, 200 - 50 ≤ i → i ≤ j → j < 200 → ∃ a b,
        (addRoadChunk 200 3 [])[([] : List Segment).length + i]? = some a ∧
        (addRoadChunk 200 3 [])[([] : List Segment).length + j]? = some b ∧
        |b.curve| ≤ |a.curve|) ∧
      (∀ i, 50 ≤ i → i < 200 - 50 → ∃ a,
        (addRoadChunk 200 3 [])[([] : List Segment).length + i]? = some a ∧
        |a.curve| = |(3 : ℚ)|)) :=
  ⟨by decide, chunk_ramp [] 200 3 (by decide)⟩

/-- C7 (colour banding): after start-up and any further sequence of
`addRoadChunk` / `generateTrack` calls, the colours of the store, read in index
order, are `floor(i / 3) % 2` for `i = 0 .. segments.length - 1`; every such
value is 0 or 1. -/
theorem color_banding (random : ℕ → Rand) (calls : List GenCall) :
    (applyCalls calls (initial random)).segments.map Segment.color =
        bandColors (applyCalls calls (initial random)).segments.length ∧
      (∀ n : ℕ, bandColors n = (List.range n).map fun i => (i / 3) % 2) ∧
      ∀ c ∈ (applyCalls calls (initial random)).segments.map Segment.color, c = 0 ∨ c = 1 := by
  have h := applyCalls_colors calls (initial random) (initial_colors random)
  refine ⟨h, fun n => rfl, ?_⟩
  intro c hc
  rw [h] at hc
  simp only [bandColors, List.mem_map, List.mem_range] at hc
  obtain ⟨i, _, rfl⟩ := hc
  omega

end OutRun

namespace OutRun

/-- With the all-zero random stream and the accelerate key held for 20000
frames, `animate` returns every time and afterwards
`segments.length - floor(pos / SEG_L) < 5000`: once the store has reached the
buffer target of `generateTrack` the lookahead can be used up. -/
theorem lookahead_used_up :
    ∃ s, run zeroRandom (List.replicate 20000 upKey) = some s ∧
      (s.segments.length : ℤ) - ⌊s.pos / SEG_L⌋ < 5000 := by
  obtain ⟨hp0, hx0, hv0⟩ := initial_vehicle zeroRandom
  obtain ⟨s, hs, hI, hp⟩ := straight_drive zeroRandom 20000 0 (initial zeroRandom)
    (initial_Inv zeroRandom) initial_zeroRandom_straight hx0
    (by rw [hv0]; norm_num [MAX_SPEED]) (by rw [hp0]; norm_num [MAX_SPEED])
  refine ⟨s, hs, ?_⟩
  have h1 : (16590 : ℤ) ≤ ⌊s.pos / SEG_L⌋ := by
    rw [Int.le_floor, le_div_iff₀ (by norm_num [SEG_L])]
    norm_num [MAX_SPEED, SEG_L] at hp ⊢
    linarith
  have h2 := hI.2.1
  omega

/-- C8 (lookahead invariant): in every state reached from start-up,
`segments.length - floor(pos / SEG_L) ≥ 5000` as long as generation is not capped
by the buffer policy of `generateTrack`, where generation is capped when the
replenishment check of `animate` fires (`playerIdx > segments.length - 5000`)
while the loop guard `segments.length < 20000` of `generateTrack` is false.  In
particular the invariant holds whenever the guard is true, and whenever the
vehicle is at most 15000 segments into the track.  The store always holds at
least 20000 segments, so the replenishment call leaves the globals unchanged,
and the invariant can only fail with generation capped; with the proviso dropped
it does fail (all-zero random stream, accelerate held for 20000 frames). -/
theorem lookahead_unless_capped (random : ℕ → Rand) (ks : List Keys) (s : State)
    (hrun : run random ks = some s) :
    (¬ (¬ s.segments.length < 20000 ∧ ⌊s.pos / SEG_L⌋ > (s.segments.length : ℤ) - 5000) →
        (s.segments.length : ℤ) - ⌊s.pos / SEG_L⌋ ≥ 5000) ∧
      (s.segments.length < 20000 → (s.segments.length : ℤ) - ⌊s.pos / SEG_L⌋ ≥ 5000) ∧
      (⌊s.pos / SEG_L⌋ ≤ 15000 → (s.segments.length : ℤ) - ⌊s.pos / SEG_L⌋ ≥ 5000) ∧
      20000 ≤ s.segments.length ∧
      generateTrack random s = s ∧ lookahead random s = s ∧
      ((s.segments.length : ℤ) - ⌊s.pos / SEG_L⌋ < 5000 →
        ¬ s.segments.length < 20000 ∧ ⌊s.pos / SEG_L⌋ > (s.segments.length : ℤ) - 5000) ∧
      ∃ s1, run zeroRandom (List.replicate 20000 upKey) = some s1 ∧
        (s1.segments.length : ℤ) - ⌊s1.pos / SEG_L⌋ < 5000 := by
  obtain ⟨s1, hs1, hI, _⟩ := run_Inv random ks
  rw [hrun] at hs1
  cases hs1
  have h1 := hI.1
  refine ⟨fun h => ?_, fun h => ?_, fun h => ?_, h1, generateTrack_of_ge random s h1,
    lookahead_of_ge random s h1, fun h => ?_, lookahead_used_up⟩
  · by_contra hlt
    exact h ⟨by omega, by omega⟩
  · omega
  · omega
  · exact ⟨by omega, by omega⟩

/-- Witness for C8: the state right after start-up, where the replenishment
check does not fire. -/
theorem lookahead_unless_capped_witness :
    run zeroRandom [] = some (initial zeroRandom) ∧
      ¬ (¬ (initial zeroRandom).segments.length < 20000 ∧
        ⌊(initial zeroRandom).pos / SEG_L⌋ > ((initial zeroRandom).segments.length : ℤ) - 5000) ∧
      ((initial zeroRandom).segments.length : ℤ) - ⌊(initial zeroRandom).pos / SEG_L⌋ ≥ 5000 :=
  have hp : ⌊(initial zeroRandom).pos / SEG_L⌋ = 0 := by
    rw [(initial_vehicle zeroRandom).1]
    norm_num
  have hlen : 20000 ≤ (initial zeroRandom).segments.length := (initial_Inv zeroRandom).1
  have h : ¬ (¬ (initial zeroRandom).segments.length < 20000 ∧
      ⌊(initial zeroRandom).pos / SEG_L⌋ > ((initial zeroRandom).segments.length : ℤ) - 5000) := by
    rw [hp]
    intro hc
    have := hc.2
    omega
  ⟨rfl, h, (lookahead_unless_capped zeroRandom [] (initial zeroRandom) rfl).1 h⟩

/-- C9, counterexample: the store does not grow without bound; no state reached
from start-up holds more than 20498 segments. -/
theorem store_not_unbounded :
    ¬ ∀ N : ℕ, ∃ (random : ℕ → Rand) (ks : List Keys) (s : State),
      run random ks = some s ∧ N < s.segments.length := by
  intro h
  obtain ⟨random, ks, s, hs, hN⟩ := h 20498
  obtain ⟨s1, hs1, hI, _⟩ := run_Inv random ks
  rw [hs] at hs1
  cases hs1
  have h2 := hI.2.1
  omega

/-- C9, amended: the chunk buffer is bounded.  After every sequence of frames,
for every random stream and every key sequence, the store is the one built at
start-up and holds between 20000 and 20498 segments. -/
theorem store_bounded (random : ℕ → Rand) (ks : List Keys) :
    ∃ s, run random ks = some s ∧ s.segments = (initial random).segments ∧
      20000 ≤ s.segments.length ∧ s.segments.length ≤ 20498 := by
  obtain ⟨s, hs, hI, hseg⟩ := run_Inv random ks
  exact ⟨s, hs, hseg, hI.1, hI.2.1⟩

/-- C10 (`generateTrack` postcondition): for every random stream the loop exits
through its own test (a larger iteration budget gives the same result), and on
return the store holds at least 20000 segments; if it held fewer than 20000
segments at the call it holds at most 20498 on return, and otherwise neither
the store nor `difficulty` (nor any other global) is changed. -/
theorem generateTrack_post (random : ℕ → Rand) (s : State) (extra : ℕ) :
    generateTrackLoop random (100 + extra) s = generateTrack random s ∧
      20000 ≤ (generateTrack random s).segments.length ∧
      (if s.segments.length < 20000 then (generateTrack random s).segments.length ≤ 20498
       else (generateTrack random s).segments = s.segments ∧
         (generateTrack random s).difficulty = s.difficulty ∧ generateTrack random s = s) := by
  refine ⟨generateTrackLoop_budget random 100 extra s (by omega),
    generateTrack_length_ge random s, ?_⟩
  split_ifs with h
  · exact generateTrack_length_le random s (by omega)
  · have he := generateTrack_of_ge random s (by omega)
    rw [he]
    exact ⟨rfl, rfl, rfl⟩

end OutRun

namespace OutRun

/-! ## Throttle, steering and shake -/

theorem steering_slow (keys : Keys) (speed : ℚ) (h : speed ≤ 10) :
    steering keys speed = (0, 0) := by
  simp only [steering]
  rw [if_neg (not_lt.mpr h)]

theorem steering_lateralInput (keys : Keys) (speed : ℚ) :
    (steering keys speed).1 =
      if speed > 10 then
        (if keys.arrowright = true then 1 else if keys.arrowleft = true then -1 else 0)
      else 0 := by
  simp only [steering]
  split_ifs <;> rfl

theorem physics_steer_slow (k1 k2 : Keys) (curve : ℚ) (s : State)
    (hup : k1.arrowup = k2.arrowup) (hdown : k1.arrowdown = k2.arrowdown)
    (hslow : throttle k1 s.speed ≤ 10) : physics k1 curve s = physics k2 curve s := by
  have ht : throttle k2 s.speed = throttle k1 s.speed := by
    simp only [throttle, hup, hdown]
  have h1 := steering_slow k1 _ hslow
  have h2 := steering_slow k2 _ (ht ▸ hslow)
  simp only [physics, ht] at h2 ⊢
  rw [h1, h2]

theorem physics_shakeAmount (keys : Keys) (curve : ℚ) (s : State) :
    (physics keys curve s).shakeAmount =
      if (physics keys curve s).speed > 350 then
        (((physics keys curve s).speed - 350) / (MAX_SPEED - 350)) * 4
      else 0 := rfl

theorem shake_bounds (speed : ℚ) (h : speed ≤ MAX_SPEED) :
    0 ≤ (if speed > 350 then ((speed - 350) / (MAX_SPEED - 350)) * 4 else 0 : ℚ) ∧
      (if speed > 350 then ((speed - 350) / (MAX_SPEED - 350)) * 4 else 0 : ℚ) ≤ 4 := by
  simp only [MAX_SPEED] at h ⊢
  split_ifs with h1
  · constructor
    · have : (0 : ℚ) ≤ (speed - 350) / (420 - 350) := div_nonneg (by linarith) (by norm_num)
      linarith
    · have : (speed - 350) / (420 - 350) ≤ 1 := by
        rw [div_le_one (by norm_num)]
        linarith
      linarith
  · exact ⟨le_refl 0, by norm_num⟩

end OutRun

namespace OutRun

theorem generateTrackLoop_shakeAmount (random : ℕ → Rand) (fuel : ℕ) (s : State) :
    (generateTrackLoop random fuel s).shakeAmount = s.shakeAmount := by
  induction fuel generalizing s with
  | zero => rfl
  | succ fuel ih =>
    simp only [generateTrackLoop]
    split_ifs
    · exact ih _
    · exact ih _
    · exact ih _
    · rfl

theorem ticks_shakeAmount (random : ℕ → Rand) (ks : List Keys) (s : State) (h : Inv s)
    (hs : s.shakeAmount =
      if s.speed > 350 then ((s.speed - 350) / (MAX_SPEED - 350)) * 4 else 0) :
    ∃ s1, ticks random ks s = some s1 ∧ Inv s1 ∧
      s1.shakeAmount =
        if s1.speed > 350 then ((s1.speed - 350) / (MAX_SPEED - 350)) * 4 else 0 := by
  induction ks generalizing s with
  | nil => exact ⟨s, rfl, h, hs⟩
  | cons keys ks ih =>
    obtain ⟨curve, frame, _, ha, hi⟩ := animate_of_Inv random keys s h
    obtain ⟨s1, hs1, hi1, hsh⟩ := ih (physics keys curve s) hi (physics_shakeAmount _ _ _)
    refine ⟨s1, ?_, hi1, hsh⟩
    simp only [ticks, ha, Option.some_bind]
    exact hs1

theorem lookahead_speed (random : ℕ → Rand) (s : State) :
    (lookahead random s).speed = s.speed := by
  simp only [lookahead]
  split_ifs
  · exact (generateTrackLoop_vehicle random 100 s).2.2
  · rfl

/-- C13, counterexample: with accelerate and brake held together at speed 100 the
throttle step yields `100 + 32/7`, not `max (100 - 15) 0 = 85`. -/
theorem throttle_brake_ignored :
    throttle upDownKeys 100 = 100 + 32 / 7 ∧ throttle upDownKeys 100 ≠ max (100 - 15) 0 := by
  have h : throttle upDownKeys 100 = 100 + 32 / 7 := by
    simp only [throttle, upDownKeys, if_true, MAX_SPEED]
    norm_num
  refine ⟨h, ?_⟩
  rw [h]
  norm_num

/-- C13, amended: in every tick, if the accelerate input is held the throttle step
adds `max (6 * (1 - speed / 420)) 0.1` to speed, whether or not the brake is held;
if accelerate is not held and the brake input is held it sets speed to
`max (speed - 15) 0`; if neither is held it multiplies speed by 0.99. -/
theorem throttle_cases (keys : Keys) (speed : ℚ) :
    throttle keys speed =
      if keys.arrowup = true then speed + max (6 * (1 - speed / 420)) (1 / 10)
      else if keys.arrowdown = true then max (speed - 15) 0
      else speed * (99 / 100) := by
  simp only [throttle, MAX_SPEED]
  split_ifs <;> norm_num

theorem physics_playerX_eq (keys : Keys) (curve : ℚ) (s : State) :
    (physics keys curve s).playerX =
      (if |s.playerX + (-curve * (throttle keys s.speed / 200) +
          (steering keys (throttle keys s.speed)).1 * (throttle keys s.speed / 12))| ≥ ROAD_LIMIT
       then clamp (s.playerX + (-curve * (throttle keys s.speed / 200) +
          (steering keys (throttle keys s.speed)).1 * (throttle keys s.speed / 12)))
          (-ROAD_LIMIT) ROAD_LIMIT
       else s.playerX + (-curve * (throttle keys s.speed / 200) +
          (steering keys (throttle keys s.speed)).1 * (throttle keys s.speed / 12))) := by
  simp only [physics]
  split_ifs <;> rfl

/-- C14 (steering is disabled near-stationary).  Slow part: if two key states
agree on accelerate and brake and the speed after the throttle step is at most
10, the physics step gives the same state (so the same `playerX`, `speed` and
`pos`) and `animate` gives the same result, whatever the steering keys.  Fast
part: if the speed after the throttle step exceeds 10, `lateralInput` is 1 when
steer-right is held, -1 when only steer-left is held and 0 otherwise, and the
lateral update before the boundary test adds
`-curve * (speed / 200) + lateralInput * (speed / 12)` to `playerX`, the second
term being the player's pull.  In every tick `lateralInput` is -1, 0 or 1. -/
theorem steering_disabled_slow (random : ℕ → Rand) (k1 k2 : Keys) (curve : ℚ) (s : State) :
    (k1.arrowup = k2.arrowup → k1.arrowdown = k2.arrowdown → throttle k1 s.speed ≤ 10 →
        physics k1 curve s = physics k2 curve s ∧
        (physics k1 curve s).playerX = (physics k2 curve s).playerX ∧
        (physics k1 curve s).speed = (physics k2 curve s).speed ∧
        (physics k1 curve s).pos = (physics k2 curve s).pos ∧
        animate random k1 s = animate random k2 s) ∧
      (10 < throttle k1 s.speed →
        (steering k1 (throttle k1 s.speed)).1 =
          (if k1.arrowright = true then 1 else if k1.arrowleft = true then -1 else 0) ∧
        (physics k1 curve s).playerX =
          (if |s.playerX + (-curve * (throttle k1 s.speed / 200) +
              (if k1.arrowright = true then 1 else if k1.arrowleft = true then -1 else 0) *
                (throttle k1 s.speed / 12))| ≥ ROAD_LIMIT
           then clamp (s.playerX + (-curve * (throttle k1 s.speed / 200) +
              (if k1.arrowright = true then 1 else if k1.arrowleft = true then -1 else 0) *
                (throttle k1 s.speed / 12))) (-ROAD_LIMIT) ROAD_LIMIT
           else s.playerX + (-curve * (throttle k1 s.speed / 200) +
              (if k1.arrowright = true then 1 else if k1.arrowleft = true then -1 else 0) *
                (throttle k1 s.speed / 12)))) ∧
      ((steering k1 (throttle k1 s.speed)).1 =
        if throttle k1 s.speed > 10 then
          (if k1.arrowright = true then 1 else if k1.arrowleft = true then -1 else 0)
        else 0) ∧
      ((steering k1 (throttle k1 s.speed)).1 = -1 ∨ (steering k1 (throttle k1 s.speed)).1 = 0 ∨
        (steering k1 (throttle k1 s.speed)).1 = 1) := by
  refine ⟨?_, ?_, steering_lateralInput _ _, ?_⟩
  · intro hup hdown hslow
    have hp := physics_steer_slow k1 k2 curve s hup hdown hslow
    refine ⟨hp, by rw [hp], by rw [hp], by rw [hp], ?_⟩
    simp only [animate]
    congr 1
    funext c
    rw [physics_steer_slow k1 k2 c (lookahead random s) hup hdown
      (by rw [lookahead_speed]; exact hslow)]
  · intro hfast
    have hl : (steering k1 (throttle k1 s.speed)).1 =
        (if k1.arrowright = true then 1 else if k1.arrowleft = true then -1 else 0) := by
      rw [steering_lateralInput, if_pos hfast]
    refine ⟨hl, ?_⟩
    rw [physics_playerX_eq, hl]
  · rw [steering_lateralInput]
    split_ifs <;> simp

end OutRun

namespace OutRun

/-- Witness for C14.  Slow part: from the start-up values (speed 0, so 6 after
the throttle step), accelerate alone against accelerate with steer-left, on
curvature 3.  Fast part: from speed 200 with accelerate and steer-left held, the
throttle step gives more than 10 and `lateralInput` is -1. -/
theorem steering_disabled_slow_witness :
    (upKey.arrowup = upLeftKeys.arrowup ∧ upKey.arrowdown = upLeftKeys.arrowdown ∧
      throttle upKey start.speed ≤ 10 ∧
      physics upKey 3 start = physics upLeftKeys 3 start ∧
      animate zeroRandom upKey start = animate zeroRandom upLeftKeys start) ∧
      (10 < throttle upLeftKeys cruise.speed ∧
        (steering upLeftKeys (throttle upLeftKeys cruise.speed)).1 = -1) :=
  have h : throttle upKey start.speed ≤ 10 := by
    simp only [throttle, upKey, start, if_true, MAX_SPEED]
    norm_num
  have h2 : 10 < throttle upLeftKeys cruise.speed := by
    simp only [throttle, upLeftKeys, cruise, if_true, MAX_SPEED]
    norm_num
  have hc := (steering_disabled_slow zeroRandom upKey upLeftKeys 3 start).1 rfl rfl h
  have hd := ((steering_disabled_slow zeroRandom upLeftKeys upLeftKeys 3 cruise).2.1 h2).1
  ⟨⟨rfl, rfl, h, hc.1, hc.2.2.2.2⟩, h2, hd⟩

/-- C18 (camera shake magnitude): after the physics step of any tick,
`shakeAmount` is 0 when the new speed is at most 350 and
`((speed - 350) / (MAX_SPEED - 350)) * 4` when it exceeds 350; it always lies in
`[0, 4]` and equals 4 exactly when the speed is `MAX_SPEED`.  The same holds in
every state reached from start-up. -/
theorem shake_magnitude (random : ℕ → Rand) (ks : List Keys) (keys : Keys) (curve : ℚ)
    (s : State) :
    ((physics keys curve s).shakeAmount =
        if (physics keys curve s).speed > 350 then
          (((physics keys curve s).speed - 350) / (MAX_SPEED - 350)) * 4
        else 0) ∧
      0 ≤ (physics keys curve s).shakeAmount ∧ (physics keys curve s).shakeAmount ≤ 4 ∧
      ((physics keys curve s).shakeAmount = 4 ↔ (physics keys curve s).speed = MAX_SPEED) ∧
      ∃ r, run random ks = some r ∧
        (r.shakeAmount =
          if r.speed > 350 then ((r.speed - 350) / (MAX_SPEED - 350)) * 4 else 0) ∧
        0 ≤ r.shakeAmount ∧ r.shakeAmount ≤ 4 := by
  have hle := physics_speed_le keys curve s
  have hb := shake_bounds _ hle
  rw [← physics_shakeAmount] at hb
  refine ⟨physics_shakeAmount _ _ _, hb.1, hb.2, ?_, ?_⟩
  · rw [physics_shakeAmount]
    simp only [MAX_SPEED] at hle ⊢
    split_ifs with h1
    · constructor
      · intro h4
        have h5 : ((physics keys curve s).speed - 350) / (420 - 350) = 1 := by linarith
        rw [div_eq_one_iff_eq (by norm_num)] at h5
        linarith
      · intro h4
        rw [h4]
        norm_num
    · constructor
      · intro h4
        norm_num at h4
      · intro h4
        rw [h4] at h1
        norm_num at h1
  · have hsh : (initial random).shakeAmount =
        if (initial random).speed > 350 then
          (((initial random).speed - 350) / (MAX_SPEED - 350)) * 4 else 0 := by
      rw [(initial_vehicle random).2.2]
      have h0 : (initial random).shakeAmount = 0 := by
        unfold initial generateTrack
        rw [generateTrackLoop_shakeAmount]
      rw [h0]
      norm_num
    obtain ⟨r, hr, hI, hs⟩ := ticks_shakeAmount random ks (initial random) (initial_Inv random) hsh
    have hb2 := shake_bounds _ hI.2.2.2.2.1
    rw [← hs] at hb2
    exact ⟨r, hr, hs, hb2.1, hb2.2⟩

end OutRun

namespace OutRun

/-! ## Scenario: straight-line acceleration -/

theorem physicsRun_replicate_succ (x : Keys × ℚ) (n : ℕ) (s : State) :
    physicsRun (List.replicate (n + 1) x) s =
      physics x.1 x.2 (physicsRun (List.replicate n x) s) := by
  rw [List.replicate_succ', physicsRun_append]
  rfl

theorem physics_upKey_straight_speed (s : State) (hx : s.playerX = 0) :
    (physics upKey 0 s).speed =
      min (s.speed + max (6 * (1 - s.speed / MAX_SPEED)) 0.1) MAX_SPEED := by
  have hL : ¬ |(0 : ℚ)| ≥ ROAD_LIMIT := by
    rw [ROAD_LIMIT_eq]
    norm_num
  have hpx : s.playerX + (-0 * (throttle upKey s.speed / 200) +
      (steering upKey (throttle upKey s.speed)).1 * (throttle upKey s.speed / 12)) = 0 := by
    have hs : (steering upKey (throttle upKey s.speed)).1 = 0 := by
      simp [steering, upKey]
    rw [hs, hx]
    ring
  simp only [physics, hpx, if_neg hL]
  simp only [throttle, upKey, if_true]

theorem accel_playerX (s0 : State) (hx : s0.playerX = 0) (n : ℕ) :
    (physicsRun (List.replicate n (upKey, 0)) s0).playerX = 0 := by
  induction n with
  | zero => exact hx
  | succ n ih =>
    rw [physicsRun_replicate_succ]
    exact (physics_upKey_straight _ ih).1

theorem accel_step (s : State) (hx : s.playerX = 0) :
    s.speed < (physics upKey 0 s).speed ∨ (physics upKey 0 s).speed = MAX_SPEED := by
  rw [physics_upKey_straight_speed s hx]
  have hm : (0.1 : ℚ) ≤ max (6 * (1 - s.speed / MAX_SPEED)) 0.1 := le_max_right _ _
  rcases le_total (s.speed + max (6 * (1 - s.speed / MAX_SPEED)) 0.1) MAX_SPEED with h | h
  · left
    rw [min_eq_left h]
    have : (0 : ℚ) < 0.1 := by norm_num
    linarith
  · right
    exact min_eq_right h

theorem accel_closed_form (s0 : State) (hv : s0.speed = 0) (hx : s0.playerX = 0) (n : ℕ)
    (hn : n ≤ 100) :
    (physicsRun (List.replicate n (upKey, 0)) s0).speed = 420 - 420 * (69 / 70 : ℚ) ^ n := by
  induction n with
  | zero =>
    show s0.speed = _
    rw [hv]
    norm_num
  | succ n ih =>
    have ih1 := ih (by omega)
    rw [physicsRun_replicate_succ]
    show (physics upKey 0 _).speed = _
    rw [physics_upKey_straight_speed _ (accel_playerX s0 hx n), ih1]
    have hq : (1 / 60 : ℚ) ≤ (69 / 70 : ℚ) ^ n := by
      have h100 : (1 / 60 : ℚ) ≤ (69 / 70 : ℚ) ^ 100 := by norm_num
      have hmono : (69 / 70 : ℚ) ^ 100 ≤ (69 / 70 : ℚ) ^ n :=
        pow_le_pow_of_le_one (by norm_num) (by norm_num) (by omega)
      linarith
    have hq1 : (69 / 70 : ℚ) ^ n ≤ 1 := pow_le_one₀ (by norm_num) (by norm_num)
    simp only [MAX_SPEED]
    have e1 : 6 * (1 - (420 - 420 * (69 / 70 : ℚ) ^ n) / 420) = 6 * (69 / 70 : ℚ) ^ n := by ring
    rw [e1, max_eq_left (by linarith), min_eq_left (by linarith), pow_succ]
    ring

/-- On a store whose segments all have curvature 0, the frame loop is the
physics step iterated on curvature 0. -/
theorem ticks_straight (random : ℕ → Rand) (ks : List Keys) (s : State) (hI : Inv s)
    (hz : ∀ seg ∈ s.segments, seg.curve = 0) :
    ticks random ks s = some (physicsRun (ks.map fun k => (k, (0 : ℚ))) s) := by
  induction ks generalizing s with
  | nil => rfl
  | cons keys ks ih =>
    obtain ⟨curve, frame, hc, ha, hI1⟩ := animate_of_Inv random keys s hI
    have hc0 : curve = 0 := currentCurve_straight s curve hz hc
    subst hc0
    simp only [ticks, ha, Option.some_bind, List.map_cons]
    rw [ih (physics keys 0 s) hI1 (by rw [physics_segments]; exact hz)]
    rfl

end OutRun

namespace OutRun

/-- C11 (straight-line acceleration): from `speed = 0` and `playerX = 0`, with only
the accelerate key held on curvature 0, each of the first 100 ticks makes the
speed strictly greater than before; at every later tick the speed is strictly
greater than before or clamped at `MAX_SPEED`; `playerX` is exactly 0 after every
tick.  On the all-straight store built from the all-zero random stream the frame
loop is this iteration. -/
theorem straight_acceleration (s0 : State) (hv : s0.speed = 0) (hx : s0.playerX = 0)
    (n : ℕ) (hn : n < 100) :
    (physicsRun (List.replicate n (upKey, 0)) s0).speed <
        (physicsRun (List.replicate (n + 1) (upKey, 0)) s0).speed ∧
      (∀ m : ℕ, (physicsRun (List.replicate m (upKey, 0)) s0).playerX = 0) ∧
      (∀ m : ℕ, (physicsRun (List.replicate m (upKey, 0)) s0).speed <
          (physicsRun (List.replicate (m + 1) (upKey, 0)) s0).speed ∨
        (physicsRun (List.replicate (m + 1) (upKey, 0)) s0).speed = MAX_SPEED) ∧
      (∀ m : ℕ, run zeroRandom (List.replicate m upKey) =
        some (physicsRun (List.replicate m (upKey, 0)) (initial zeroRandom))) := by
  refine ⟨?_, accel_playerX s0 hx, ?_, ?_⟩
  · rw [accel_closed_form s0 hv hx n (by omega), accel_closed_form s0 hv hx (n + 1) (by omega),
      pow_succ]
    have hq : (0 : ℚ) < (69 / 70 : ℚ) ^ n := by positivity
    linarith
  · intro m
    rw [physicsRun_replicate_succ]
    exact accel_step _ (accel_playerX s0 hx m)
  · intro m
    have h := ticks_straight zeroRandom (List.replicate m upKey) (initial zeroRandom)
      (initial_Inv zeroRandom) initial_zeroRandom_straight
    rw [List.map_replicate] at h
    exact h

/-- Witness for C11: the start-up values of the vehicle and the fourth tick. -/
theorem straight_acceleration_witness :
    start.speed = 0 ∧ start.playerX = 0 ∧ 3 < 100 ∧
      (physicsRun (List.replicate 3 (upKey, 0)) start).speed <
        (physicsRun (List.replicate (3 + 1) (upKey, 0)) start).speed ∧
      ∀ m : ℕ, (physicsRun (List.replicate m (upKey, 0)) start).playerX = 0 :=
  have hc := straight_acceleration start rfl rfl 3 (by decide)
  ⟨rfl, rfl, by decide, hc.1, hc.2.1⟩

end OutRun

namespace OutRun

/-! ## Scenario: drift on a constant curve with no key held -/

theorem physics_noKeys (c : ℚ) (a : State) :
    (physics noKeys c a).playerX =
        (if |a.playerX - c * (a.speed * 0.99) / 200| ≥ ROAD_LIMIT
         then clamp (a.playerX - c * (a.speed * 0.99) / 200) (-ROAD_LIMIT) ROAD_LIMIT
         else a.playerX - c * (a.speed * 0.99) / 200) ∧
      (physics noKeys c a).speed =
        min (if |a.playerX - c * (a.speed * 0.99) / 200| ≥ ROAD_LIMIT
             then a.speed * 0.99 * 0.98 else a.speed * 0.99) MAX_SPEED := by
  have ht : throttle noKeys a.speed = a.speed * 0.99 := by
    simp [throttle, noKeys]
  have hpx : a.playerX + (-c * (throttle noKeys a.speed / 200) +
      (steering noKeys (throttle noKeys a.speed)).1 * (throttle noKeys a.speed / 12)) =
      a.playerX - c * (a.speed * 0.99) / 200 := by
    have hs : (steering noKeys (throttle noKeys a.speed)).1 = 0 := by
      simp [steering, noKeys]
    rw [hs, ht]
    ring
  constructor
  · simp only [physics, hpx]
    split_ifs <;> rfl
  · have hpx1 := hpx
    rw [ht] at hpx1
    simp only [physics, ht, hpx1]
    split_ifs <;> rfl

theorem clamp_low (x : ℚ) (h : x ≤ -ROAD_LIMIT) : clamp x (-ROAD_LIMIT) ROAD_LIMIT = -ROAD_LIMIT := by
  have hL : (0 : ℚ) ≤ ROAD_LIMIT := by rw [ROAD_LIMIT_eq]; norm_num
  unfold clamp
  rw [min_eq_right (by linarith), max_eq_left h]

/-- One tick of the drift from the closed form: either the boundary is hit and
`playerX` is clamped at `-ROAD_LIMIT`, or the closed form holds one tick later. -/
theorem drift_step (c : ℚ) (hc : 0 < c) (a : State) (n : ℕ)
    (hv : a.speed = 200 * (99 / 100 : ℚ) ^ n)
    (hx : a.playerX = -(99 * c * (1 - (99 / 100 : ℚ) ^ n))) :
    ((physics noKeys c a).playerX = -ROAD_LIMIT ∧
        ROAD_LIMIT ≤ 99 * c * (1 - (99 / 100 : ℚ) ^ (n + 1))) ∨
      ((physics noKeys c a).speed = 200 * (99 / 100 : ℚ) ^ (n + 1) ∧
        (physics noKeys c a).playerX = -(99 * c * (1 - (99 / 100 : ℚ) ^ (n + 1))) ∧
        99 * c * (1 - (99 / 100 : ℚ) ^ (n + 1)) < ROAD_LIMIT) := by
  obtain ⟨hpx, hps⟩ := physics_noKeys c a
  have hq0 : (0 : ℚ) < (99 / 100 : ℚ) ^ (n + 1) := by positivity
  have hq1 : (99 / 100 : ℚ) ^ (n + 1) ≤ 1 := pow_le_one₀ (by norm_num) (by norm_num)
  have hx1 : a.playerX - c * (a.speed * 0.99) / 200 =
      -(99 * c * (1 - (99 / 100 : ℚ) ^ (n + 1))) := by
    rw [hv, hx, pow_succ]
    ring
  have hnn : 0 ≤ 99 * c * (1 - (99 / 100 : ℚ) ^ (n + 1)) :=
    mul_nonneg (by linarith) (by linarith)
  rw [hx1, abs_neg, abs_of_nonneg hnn] at hpx hps
  by_cases hhit : 99 * c * (1 - (99 / 100 : ℚ) ^ (n + 1)) ≥ ROAD_LIMIT
  · left
    rw [if_pos hhit] at hpx
    rw [hpx]
    exact ⟨clamp_low _ (by linarith), hhit⟩
  · right
    rw [if_neg hhit] at hpx hps
    refine ⟨?_, hpx, not_le.mp hhit⟩
    rw [hps, hv, min_eq_left, pow_succ]
    · ring
    · have hqn : (99 / 100 : ℚ) ^ n ≤ 1 := pow_le_one₀ (by norm_num) (by norm_num)
      simp only [MAX_SPEED]
      linarith

/-- While `99 * c ≤ ROAD_LIMIT` the drift follows the closed form forever. -/
theorem drift_closed_form (c : ℚ) (hc : 0 < c) (hsmall : 99 * c ≤ ROAD_LIMIT) (s0 : State)
    (hv : s0.speed = 200) (hx : s0.playerX = 0) (n : ℕ) :
    (physicsRun (List.replicate n (noKeys, c)) s0).speed = 200 * (99 / 100 : ℚ) ^ n ∧
      (physicsRun (List.replicate n (noKeys, c)) s0).playerX =
        -(99 * c * (1 - (99 / 100 : ℚ) ^ n)) := by
  induction n with
  | zero =>
    constructor
    · show s0.speed = _
      rw [hv]
      norm_num
    · show s0.playerX = _
      rw [hx]
      norm_num
  | succ n ih =>
    rw [physicsRun_replicate_succ]
    rcases drift_step c hc _ n ih.1 ih.2 with h | h
    · exfalso
      have hq0 : (0 : ℚ) < (99 / 100 : ℚ) ^ (n + 1) := by positivity
      have h2 := h.2
      nlinarith
    · exact ⟨h.1, h.2.1⟩

/-- When `ROAD_LIMIT < 99 * c` the drift reaches the boundary. -/
theorem drift_reaches_limit (c : ℚ) (hc : 0 < c) (hbig : ROAD_LIMIT < 99 * c) (s0 : State)
    (hv : s0.speed = 200) (hx : s0.playerX = 0) :
    ∃ n, (physicsRun (List.replicate n (noKeys, c)) s0).playerX = -ROAD_LIMIT := by
  by_contra hne
  push_neg at hne
  have hcf : ∀ n, (physicsRun (List.replicate n (noKeys, c)) s0).speed =
        200 * (99 / 100 : ℚ) ^ n ∧
      (physicsRun (List.replicate n (noKeys, c)) s0).playerX =
        -(99 * c * (1 - (99 / 100 : ℚ) ^ n)) ∧
      99 * c * (1 - (99 / 100 : ℚ) ^ n) < ROAD_LIMIT := by
    intro n
    induction n with
    | zero =>
      refine ⟨?_, ?_, ?_⟩
      · show s0.speed = _
        rw [hv]
        norm_num
      · show s0.playerX = _
        rw [hx]
        norm_num
      · rw [ROAD_LIMIT_eq]
        norm_num
    | succ n ih =>
      have hstep := drift_step c hc _ n ih.1 ih.2.1
      rw [← physicsRun_replicate_succ (noKeys, c) n s0] at hstep
      rcases hstep with h | h
      · exact absurd h.1 (hne (n + 1))
      · exact h
  have hpos : (0 : ℚ) < 1 - ROAD_LIMIT / (99 * c) := by
    have : ROAD_LIMIT / (99 * c) < 1 := by
      rw [div_lt_one (by linarith)]
      exact hbig
    linarith
  obtain ⟨n, hn⟩ := exists_pow_lt_of_lt_one hpos (by norm_num : (99 / 100 : ℚ) < 1)
  have h3 := (hcf n).2.2
  have h4 : ROAD_LIMIT / (99 * c) < 1 - (99 / 100 : ℚ) ^ n := by linarith
  rw [div_lt_iff₀ (by linarith)] at h4
  linarith

end OutRun

namespace OutRun

/-- C12, counterexample: on constant curvature 1, from `playerX = 0` and
`speed = 200` with no key held, there is no tick after which `playerX` is clamped
at `-ROAD_LIMIT` (it stays above -99 forever). -/
theorem drift_never_clamped :
    ¬ ∃ n : ℕ, (physicsRun (List.replicate n (noKeys, 1)) cruise).playerX ≤ -99 ∨
      (physicsRun (List.replicate n (noKeys, 1)) cruise).playerX = -ROAD_LIMIT := by
  rintro ⟨n, hn⟩
  have h := (drift_closed_form 1 (by norm_num) (by rw [ROAD_LIMIT_eq]; norm_num) cruise rfl rfl n).2
  have hq0 : (0 : ℚ) < (99 / 100 : ℚ) ^ n := by positivity
  rw [h, ROAD_LIMIT_eq] at hn
  rcases hn with hn | hn
  · linarith
  · linarith

/-- C12, amended: on constant curvature `c > 0` with no key held, a tick from a
state with `0 < speed ≤ MAX_SPEED` first applies drag (`speed * 0.99`), then moves
`playerX` in the negative direction by exactly `c * speed / 200` (speed after
drag); if the result reaches the boundary, `playerX` is clamped into
`[-ROAD_LIMIT, ROAD_LIMIT]` and the speed is additionally scaled by 0.98; the
speed strictly decays on every tick.  Starting from `playerX = 0` and
`speed = 200`, the total drift stays below `99 * c`: if `99 * c ≤ ROAD_LIMIT` the
boundary is never reached and `playerX` after `n` ticks is
`-(99 * c * (1 - 0.99 ^ n))`; if `99 * c > ROAD_LIMIT`, `playerX` is eventually
clamped at `-ROAD_LIMIT`. -/
theorem curve_drift (c : ℚ) (hc : 0 < c) (a : State) (ha : 0 < a.speed)
    (ha2 : a.speed ≤ MAX_SPEED) (s0 : State) (hv : s0.speed = 200) (hx : s0.playerX = 0) :
    a.playerX - c * (a.speed * 0.99) / 200 < a.playerX ∧
      (physics noKeys c a).playerX =
        (if |a.playerX - c * (a.speed * 0.99) / 200| ≥ ROAD_LIMIT
         then clamp (a.playerX - c * (a.speed * 0.99) / 200) (-ROAD_LIMIT) ROAD_LIMIT
         else a.playerX - c * (a.speed * 0.99) / 200) ∧
      (physics noKeys c a).speed =
        (if |a.playerX - c * (a.speed * 0.99) / 200| ≥ ROAD_LIMIT
         then a.speed * 0.99 * 0.98 else a.speed * 0.99) ∧
      (physics noKeys c a).speed < a.speed ∧
      (99 * c ≤ ROAD_LIMIT → ∀ n : ℕ,
        (physicsRun (List.replicate n (noKeys, c)) s0).playerX =
            -(99 * c * (1 - (99 / 100 : ℚ) ^ n)) ∧
          -ROAD_LIMIT < (physicsRun (List.replicate n (noKeys, c)) s0).playerX) ∧
      (ROAD_LIMIT < 99 * c →
        ∃ n : ℕ, (physicsRun (List.replicate n (noKeys, c)) s0).playerX = -ROAD_LIMIT) := by
  obtain ⟨hpx, hps⟩ := physics_noKeys c a
  have hsp : (physics noKeys c a).speed =
      (if |a.playerX - c * (a.speed * 0.99) / 200| ≥ ROAD_LIMIT
       then a.speed * 0.99 * 0.98 else a.speed * 0.99) := by
    rw [hps]
    apply min_eq_left
    simp only [MAX_SPEED] at ha2 ⊢
    split_ifs <;> linarith
  refine ⟨?_, hpx, hsp, ?_, ?_, ?_⟩
  · have : 0 < c * (a.speed * 0.99) / 200 := by positivity
    linarith
  · rw [hsp]
    split_ifs <;> linarith
  · intro hsmall n
    have h := (drift_closed_form c hc hsmall s0 hv hx n).2
    refine ⟨h, ?_⟩
    rw [h]
    have hq0 : (0 : ℚ) < (99 / 100 : ℚ) ^ n := by positivity
    nlinarith
  · intro hbig
    exact drift_reaches_limit c hc hbig s0 hv hx

/-- Witness for C12 as amended: curvature 1 from `playerX = 0`, `speed = 200`. -/
theorem curve_drift_witness :
    (0 : ℚ) < 1 ∧ 0 < cruise.speed ∧ cruise.speed ≤ MAX_SPEED ∧ cruise.speed = 200 ∧
      cruise.playerX = 0 ∧
      (physics noKeys 1 cruise).speed < cruise.speed ∧
      (99 * 1 ≤ ROAD_LIMIT → ∀ n : ℕ,
        (physicsRun (List.replicate n (noKeys, 1)) cruise).playerX =
            -(99 * 1 * (1 - (99 / 100 : ℚ) ^ n)) ∧
          -ROAD_LIMIT < (physicsRun (List.replicate n (noKeys, 1)) cruise).playerX) :=
  have h1 : (0 : ℚ) < cruise.speed := by
    show (0 : ℚ) < 200
    norm_num
  have h2 : cruise.speed ≤ MAX_SPEED := by
    show (200 : ℚ) ≤ 420
    norm_num
  have hc := curve_drift 1 (by norm_num) cruise h1 h2 cruise rfl rfl
  ⟨by norm_num, h1, h2, rfl, rfl, hc.2.2.2.1, hc.2.2.2.2.1⟩

end OutRun

namespace OutRun

/-! ## The store is append-only -/

theorem generateTrack_appends (random : ℕ → Rand) (s : State) :
    ∃ added, (generateTrack random s).segments = s.segments ++ added := by
  refine generateTrackLoop_segments random (fun segs => ∃ added, segs = s.segments ++ added)
    ?_ 100 s ⟨[], by simp⟩
  rintro len curve segs - - - ⟨added, rfl⟩
  rw [addRoadChunk_eq]
  exact ⟨_, List.append_assoc _ _ _⟩

theorem lookahead_appends (random : ℕ → Rand) (s : State) :
    ∃ added, (lookahead random s).segments = s.segments ++ added := by
  simp only [lookahead]
  split_ifs
  · exact generateTrack_appends random s
  · exact ⟨[], by simp⟩

theorem animate_state (random : ℕ → Rand) (keys : Keys) (s : State) (r : State × Frame)
    (h : animate random keys s = some r) :
    ∃ curve, currentCurve (lookahead random s) = some curve ∧
      r.1 = physics keys curve (lookahead random s) := by
  simp only [animate, Option.bind_eq_some, Option.map_eq_some'] at h
  obtain ⟨curve, hc, frame, _, rfl⟩ := h
  exact ⟨curve, hc, rfl⟩

/-- C16 (the store is append-only): `addRoadChunk(len, curve)` leaves the store as
the store before followed by exactly `len` new segments; after `generateTrack`
and after a tick of `animate` the store is the store before followed by the
segments added, so no segment is removed, reordered or changed. -/
theorem store_append_only (random : ℕ → Rand) (keys : Keys) (s : State) (len : ℕ) (curve : ℚ)
    (segments : List Segment) (h : (animate random keys s).isSome) :
    (∃ new, addRoadChunk len curve segments = segments ++ new ∧ new.length = len) ∧
      (∃ added, (generateTrack random s).segments = s.segments ++ added) ∧
      ∃ r added, animate random keys s = some r ∧ r.1.segments = s.segments ++ added := by
  refine ⟨⟨_, addRoadChunk_eq len curve segments, by simp⟩, generateTrack_appends random s, ?_⟩
  obtain ⟨r, hr⟩ := Option.isSome_iff_exists.mp h
  obtain ⟨c, _, hc⟩ := animate_state random keys s r hr
  obtain ⟨added, ha⟩ := lookahead_appends random s
  exact ⟨r, added, hr, by rw [hc, physics_segments, ha]⟩

/-- Witness for C16: the first frame after start-up with the all-zero random
stream, and a chunk of 3 segments appended to the empty store. -/
theorem store_append_only_witness :
    (animate zeroRandom upKey (initial zeroRandom)).isSome ∧
      (∃ new, addRoadChunk 3 2 [] = [] ++ new ∧ new.length = 3) ∧
      (∃ added, (generateTrack zeroRandom (initial zeroRandom)).segments =
        (initial zeroRandom).segments ++ added) ∧
      ∃ r added, animate zeroRandom upKey (initial zeroRandom) = some r ∧
        r.1.segments = (initial zeroRandom).segments ++ added :=
  have h : (animate zeroRandom upKey (initial zeroRandom)).isSome := by
    obtain ⟨curve, frame, _, ha, _⟩ :=
      animate_of_Inv zeroRandom upKey (initial zeroRandom) (initial_Inv zeroRandom)
    rw [ha]
    rfl
  ⟨h, store_append_only zeroRandom upKey (initial zeroRandom) 3 2 [] h⟩

end OutRun

namespace OutRun

/-! ## The difficulty ramp -/

theorem curvedCount_cons (ch : Chunk) (log : List Chunk) :
    curvedCount (ch :: log) = curvedCount log + (if ch.curved = true then 1 else 0) := by
  simp only [curvedCount, List.countP_cons]

/-- The trace describes the loop: the store is the replay of the trace and
`difficulty` has grown by 0.01 per curved chunk of the trace. -/
theorem generateTrackLog_spec (random : ℕ → Rand) (fuel : ℕ) (s : State) :
    (generateTrackLoop random fuel s).segments =
        replay (generateTrackLog random fuel s) s.segments ∧
      (generateTrackLoop random fuel s).difficulty =
        s.difficulty + 0.01 * (curvedCount (generateTrackLog random fuel s) : ℚ) := by
  induction fuel generalizing s with
  | zero =>
    simp [generateTrackLoop, generateTrackLog, replay, curvedCount]
  | succ fuel ih =>
    simp only [generateTrackLoop, generateTrackLog]
    by_cases h1 : s.segments.length < 20000
    · rw [if_pos h1, if_pos h1]
      by_cases h2 : (random s.rng).val < 0.3
      · rw [if_pos h2, if_pos h2]
        obtain ⟨ih1, ih2⟩ := ih
          { s with
            segments := addRoadChunk (200 + ⌊(random (s.rng + 1)).val * 300⌋.toNat) 0 s.segments
            rng := s.rng + 2 }
        refine ⟨by rw [ih1]; rfl, ?_⟩
        rw [ih2, curvedCount_cons]
        simp
      · rw [if_neg h2, if_neg h2]
        obtain ⟨ih1, ih2⟩ := ih
          { s with
            segments := addRoadChunk (200 + ⌊(random (s.rng + 1)).val * 300⌋.toNat)
              ((if (random (s.rng + 2)).val > 0.5 then 1 else -1) *
                ((2.0 + (random (s.rng + 3)).val * 3.0) * s.difficulty)) s.segments
            difficulty := s.difficulty + 0.01
            rng := s.rng + 4 }
        refine ⟨by rw [ih1]; rfl, ?_⟩
        rw [ih2, curvedCount_cons]
        simp only [if_true]
        push_cast
        ring
    · rw [if_neg h1, if_neg h1]
      simp [replay, curvedCount]

/-- Every chunk of the trace: a straight chunk has curve 0, a curved chunk has
a curve of magnitude in `[2 * d, 5 * d)` for the difficulty `d` recorded with it,
and the length is in `200 .. 499`. -/
theorem generateTrackLog_entries (random : ℕ → Rand) (fuel : ℕ) (s : State)
    (hd : 0 < s.difficulty) :
    ∀ ch ∈ generateTrackLog random fuel s,
      0 < ch.difficulty ∧ 200 ≤ ch.len ∧ ch.len ≤ 499 ∧
      (ch.curved = false → ch.curve = 0) ∧
      (ch.curved = true → 2 * ch.difficulty ≤ |ch.curve| ∧ |ch.curve| < 5 * ch.difficulty) := by
  induction fuel generalizing s with
  | zero =>
    intro ch hch
    simp [generateTrackLog] at hch
  | succ fuel ih =>
    intro ch hch
    simp only [generateTrackLog] at hch
    have hlen := chunkLen_le (random (s.rng + 1))
    by_cases h1 : s.segments.length < 20000
    · rw [if_pos h1] at hch
      by_cases h2 : (random s.rng).val < 0.3
      · rw [if_pos h2, List.mem_cons] at hch
        rcases hch with rfl | hch
        · refine ⟨hd, ?_, ?_, fun _ => rfl, fun h => ?_⟩
          · dsimp only
            omega
          · dsimp only
            omega
          · cases h
        · have hrec := fun hd1 => ih _ hd1 ch hch
          exact hrec hd
      · rw [if_neg h2, List.mem_cons] at hch
        rcases hch with rfl | hch
        · refine ⟨hd, ?_, ?_, fun h => ?_, fun _ => ?_⟩
          · dsimp only
            omega
          · dsimp only
            omega
          · cases h
          · have hr0 := (random (s.rng + 3)).nonneg
            have hr1 := (random (s.rng + 3)).lt_one
            have hdir : |(if (random (s.rng + 2)).val > 0.5 then (1 : ℚ) else -1)| = 1 := by
              split_ifs <;> simp
            have hint : (0 : ℚ) ≤ (2.0 + (random (s.rng + 3)).val * 3.0) * s.difficulty :=
              mul_nonneg (by linarith) hd.le
            dsimp only
            rw [abs_mul, hdir, one_mul, abs_of_nonneg hint]
            constructor
            · nlinarith
            · nlinarith
        · have hrec := fun hd1 => ih _ hd1 ch hch
          apply hrec
          dsimp only
          linarith
    · rw [if_neg h1] at hch
      cases hch

/-- The difficulty recorded with the `i`-th chunk of the trace is the initial
difficulty plus 0.01 per curved chunk synthesized before it. -/
theorem generateTrackLog_difficulty (random : ℕ → Rand) (fuel : ℕ) (s : State) :
    ∀ (i : ℕ) (ch : Chunk), (generateTrackLog random fuel s)[i]? = some ch →
      ch.difficulty =
        s.difficulty + 0.01 * (curvedCount ((generateTrackLog random fuel s).take i) : ℚ) := by
  induction fuel generalizing s with
  | zero =>
    intro i ch hch
    simp [generateTrackLog] at hch
  | succ fuel ih =>
    intro i ch hch
    simp only [generateTrackLog] at hch ⊢
    by_cases h1 : s.segments.length < 20000
    · rw [if_pos h1] at hch ⊢
      by_cases h2 : (random s.rng).val < 0.3
      · rw [if_pos h2] at hch ⊢
        cases i with
        | zero =>
          simp only [List.getElem?_cons_zero, Option.some.injEq] at hch
          subst hch
          simp [curvedCount]
        | succ i =>
          rw [List.getElem?_cons_succ] at hch
          rw [List.take_succ_cons, curvedCount_cons, ih _ i ch hch]
          simp
      · rw [if_neg h2] at hch ⊢
        cases i with
        | zero =>
          simp only [List.getElem?_cons_zero, Option.some.injEq] at hch
          subst hch
          simp [curvedCount]
        | succ i =>
          rw [List.getElem?_cons_succ] at hch
          rw [List.take_succ_cons, curvedCount_cons, ih _ i ch hch]
          simp only [if_true]
          push_cast
          ring
    · rw [if_neg h1] at hch
      simp at hch

theorem generateTrackLoop_succ (random : ℕ → Rand) (fuel : ℕ) (s : State) :
    generateTrackLoop random (fuel + 1) s =
      generateTrackLoop random 1 (generateTrackLoop random fuel s) := by
  induction fuel generalizing s with
  | zero => rfl
  | succ fuel ih =>
    by_cases h1 : s.segments.length < 20000
    · have hunf : ∀ k, generateTrackLoop random (k + 1) s =
          generateTrackLoop random k (generateTrackLoop random 1 s) := by
        intro k
        simp only [generateTrackLoop, if_pos h1]
        split_ifs <;> rfl
      rw [hunf (fuel + 1), hunf fuel, ih]
    · rw [generateTrackLoop_of_ge random _ s (by omega),
        generateTrackLoop_of_ge random _ s (by omega),
        generateTrackLoop_of_ge random _ s (by omega)]

theorem generateTrackLoop_one_difficulty (random : ℕ → Rand) (s : State) :
    (generateTrackLoop random 1 s).difficulty =
      if s.segments.length < 20000 ∧ ¬ (random s.rng).val < 0.3 then s.difficulty + 0.01
      else s.difficulty := by
  simp only [generateTrackLoop]
  by_cases h1 : s.segments.length < 20000
  · by_cases h2 : (random s.rng).val < 0.3
    · simp [h1, h2]
    · simp [h1, h2]
  · simp [h1]

theorem ticks_difficulty (random : ℕ → Rand) (ks : List Keys) (s : State) (h : Inv s) :
    ∃ s1, ticks random ks s = some s1 ∧ s1.difficulty = s.difficulty := by
  induction ks generalizing s with
  | nil => exact ⟨s, rfl, rfl⟩
  | cons keys ks ih =>
    obtain ⟨curve, frame, _, ha, hi⟩ := animate_of_Inv random keys s h
    obtain ⟨s1, hs1, hd⟩ := ih (physics keys curve s) hi
    refine ⟨s1, ?_, by rw [hd, physics_difficulty]⟩
    simp only [ticks, ha, Option.some_bind]
    exact hs1

end OutRun

namespace OutRun

theorem initial_eq_seeded (random : ℕ → Rand) : initial random = generateTrack random seeded :=
  rfl

/-- C17 (difficulty ramp): one iteration of the loop of `generateTrack` leaves
`difficulty` unchanged when it synthesizes a straight chunk (`type < 0.3`) and
adds exactly 0.01 when it synthesizes a curved chunk.  At every point of the
start-up generation (after `k` iterations at most) the store is the replay of
the chunks synthesized so far and `difficulty = 1.0 + 0.01 * (number of curved
chunks so far)`; it never decreases; a straight chunk has curve 0 and a curved
chunk has a curve of magnitude in `[2 * d, 5 * d)` for the difficulty `d` in
force when it is synthesized, which is `1.0 + 0.01 *` the number of curved
chunks before it.  In every state reached from start-up `difficulty` is the
value at the end of the start-up generation. -/
theorem difficulty_ramp (random : ℕ → Rand) (s : State) (k : ℕ) (ks : List Keys) :
    ((generateTrackLoop random 1 s).difficulty =
        if s.segments.length < 20000 ∧ ¬ (random s.rng).val < 0.3 then s.difficulty + 0.01
        else s.difficulty) ∧
      (generateTrackLoop random k seeded).segments =
        replay (generateTrackLog random k seeded) seeded.segments ∧
      (generateTrackLoop random k seeded).difficulty =
        1.0 + 0.01 * (curvedCount (generateTrackLog random k seeded) : ℚ) ∧
      (generateTrackLoop random k seeded).difficulty ≤
        (generateTrackLoop random (k + 1) seeded).difficulty ∧
      (∀ ch ∈ generateTrackLog random k seeded,
        (ch.curved = false → ch.curve = 0) ∧
        (ch.curved = true → 2 * ch.difficulty ≤ |ch.curve| ∧ |ch.curve| < 5 * ch.difficulty)) ∧
      (∀ (i : ℕ) (ch : Chunk), (generateTrackLog random k seeded)[i]? = some ch →
        ch.difficulty =
          1.0 + 0.01 * (curvedCount ((generateTrackLog random k seeded).take i) : ℚ)) ∧
      ∃ r, run random ks = some r ∧
        r.difficulty = 1.0 + 0.01 * (curvedCount (generateTrackLog random 100 seeded) : ℚ) := by
  have hd : (0 : ℚ) < seeded.difficulty := by
    show (0 : ℚ) < 1.0
    norm_num
  refine ⟨generateTrackLoop_one_difficulty random s, (generateTrackLog_spec random k seeded).1,
    (generateTrackLog_spec random k seeded).2, ?_, ?_,
    generateTrackLog_difficulty random k seeded, ?_⟩
  · rw [generateTrackLoop_succ, generateTrackLoop_one_difficulty]
    split_ifs
    · have : (0 : ℚ) ≤ 0.01 := by norm_num
      linarith
    · exact le_refl _
  · intro ch hch
    obtain ⟨_, _, _, h1, h2⟩ := generateTrackLog_entries random k seeded hd ch hch
    exact ⟨h1, h2⟩
  · obtain ⟨r, hr, hdiff⟩ := ticks_difficulty random ks (initial random) (initial_Inv random)
    refine ⟨r, hr, ?_⟩
    rw [hdiff, initial_eq_seeded]
    exact (generateTrackLog_spec random 100 seeded).2

end OutRun

namespace OutRun

/-! ## The projection: `render` computes the frame of the specification -/

theorem integX_succ (c : ℕ → ℚ) (dx0 x0 : ℚ) (n : ℕ) :
    integX c dx0 x0 (n + 1) = integX c dx0 x0 n + (dx0 + seedDx c n) := by
  simp only [integX, seedDx, Finset.sum_range_succ]
  have h : ∑ m ∈ Finset.range n, (((n + 1 : ℕ) : ℚ) - 1 - (m : ℚ)) * c m =
      ∑ m ∈ Finset.range n, ((n : ℚ) - 1 - (m : ℚ)) * c m + ∑ m ∈ Finset.range n, c m := by
    rw [← Finset.sum_add_distrib]
    apply Finset.sum_congr rfl
    intro m _
    push_cast
    ring
  rw [h]
  push_cast
  ring

theorem seedCurrX_succ (c : ℕ → ℚ) (j : ℕ) :
    seedCurrX c (j + 1) = seedCurrX c j + seedDx c (j + 1) := by
  simp only [seedCurrX, seedDx, Finset.sum_range_succ]
  have h : ∑ i ∈ Finset.range j, (((j + 1 : ℕ) : ℚ) - (i : ℚ)) * c i =
      ∑ i ∈ Finset.range j, ((j : ℚ) - (i : ℚ)) * c i + ∑ i ∈ Finset.range j, c i := by
    rw [← Finset.sum_add_distrib]
    apply Finset.sum_congr rfl
    intro i _
    push_cast
    ring
  rw [h]
  push_cast
  ring

theorem getSeg_segAt (segments : List Segment) (startIdx : ℤ) (k : ℕ)
    (h : 0 < segments.length) :
    getSeg segments (resolveIdx segments.length (startIdx + (k : ℤ))) =
      some (segAt segments startIdx k) := by
  obtain ⟨seg, hseg⟩ := Option.isSome_iff_exists.mp (getSeg_resolveIdx_isSome segments
    (startIdx + (k : ℤ)) h)
  simp only [segAt, hseg, Option.getD_some]

theorem seedLoop_eq (segments : List Segment) (startIdx : ℤ) (h : 0 < segments.length)
    (j : ℕ) :
    (List.range j).foldlM (seedStep segments startIdx) ((0, 0) : ℚ × ℚ) =
      some (seedDx (curveAt segments startIdx) j, seedCurrX (curveAt segments startIdx) j) := by
  induction j with
  | zero => simp [seedDx, seedCurrX]
  | succ j ih =>
    rw [List.range_succ, List.foldlM_append, ih]
    simp only [Option.bind_eq_bind, Option.some_bind, List.foldlM_cons, List.foldlM_nil,
      seedStep, getSeg_segAt segments startIdx j h, Option.map_some', Option.pure_def]
    rw [seedCurrX_succ]
    simp only [seedDx, Finset.sum_range_succ, curveAt]

theorem drawLoop_eq (s : State) (startIdx : ℤ) (offsetZ dx0 x0 : ℚ)
    (h : 0 < s.segments.length) (n : ℕ) :
    (List.range n).foldlM (drawStep s startIdx offsetZ)
        { dx := dx0, currX := x0,
          frame := { road := [], roadColor := [], lane := [], pole := [] } } =
      some
        { dx := dx0 + seedDx (curveAt s.segments startIdx) n
          currX := integX (curveAt s.segments startIdx) dx0 x0 n
          frame :=
            { road := (List.range n).map fun k =>
                { slot := k, x := integX (curveAt s.segments startIdx) dx0 x0 k - s.playerX,
                  y := 0, z := relZ offsetZ k }
              roadColor := (List.range n).map fun k =>
                (k, if (segAt s.segments startIdx k).color ≠ 0 then 0x080808 else 0x101010)
              lane := (List.range n).flatMap fun k =>
                laneWrites k (integX (curveAt s.segments startIdx) dx0 x0 k - s.playerX)
                  (relZ offsetZ k)
              pole := (List.range n).flatMap fun k =>
                poleWrites k (resolveIdx s.segments.length (startIdx + (k : ℤ)))
                  (integX (curveAt s.segments startIdx) dx0 x0 k - s.playerX)
                  (relZ offsetZ k) } } := by
  induction n with
  | zero => simp [seedDx, integX]
  | succ n ih =>
    rw [List.range_succ, List.foldlM_append, ih]
    simp only [Option.bind_eq_bind, Option.some_bind, List.foldlM_cons, List.foldlM_nil,
      drawStep, getSeg_segAt s.segments startIdx n h, Option.map_some', Option.pure_def,
      List.map_append, List.flatMap_append, List.map_cons, List.map_nil, List.flatMap_cons,
      List.flatMap_nil, List.append_nil]
    rw [integX_succ]
    simp only [seedDx, Finset.sum_range_succ, curveAt, relZ]
    congr 2
    ring

/-- On a non-empty store `render` returns the frame of the specification. -/
theorem render_eq (s : State) (h : 0 < s.segments.length) : render s = some (specFrame s) := by
  simp only [render, specFrame]
  have hs := seedLoop_eq s.segments (⌊s.pos / SEG_L⌋ - (OFFSET_BACK : ℤ)) h OFFSET_BACK
  rw [hs]
  simp only [Option.some_bind]
  rw [drawLoop_eq s _ _ _ _ h DRAW_D]
  rfl

end OutRun

namespace OutRun

/-- From a state satisfying the invariant, `animate` returns the physics step at
the curvature read from the store together with the frame of the specification
for the new state. -/
theorem animate_eq_of_Inv (random : ℕ → Rand) (keys : Keys) (s : State) (h : Inv s) :
    ∃ curve, currentCurve s = some curve ∧
      animate random keys s =
        some (physics keys curve s, specFrame (physics keys curve s)) ∧
      Inv (physics keys curve s) := by
  obtain ⟨curve, frame, hc, ha, hI⟩ := animate_of_Inv random keys s h
  refine ⟨curve, hc, ?_, hI⟩
  have hr := render_eq (physics keys curve s) (by rw [physics_segments]; have := h.1; omega)
  simp only [animate, lookahead_of_ge random s h.1, hc, Option.some_bind, hr, Option.map_some']

/-- In every state reached from start-up, the next frame exists and is the frame
of the specification for the state after the physics step. -/
theorem reachable_frame (random : ℕ → Rand) (ks : List Keys) (keys : Keys) :
    ∃ s r, run random ks = some s ∧ animate random keys s = some r ∧
      r.2 = specFrame r.1 ∧ 0 < r.1.segments.length := by
  obtain ⟨s, hs, hI, _⟩ := run_Inv random ks
  obtain ⟨curve, _, ha, hI1⟩ := animate_eq_of_Inv random keys s hI
  have hlen : 0 < (physics keys curve s).segments.length := by
    have := hI1.1
    omega
  exact ⟨s, _, hs, ha, rfl, hlen⟩

theorem laneWrites_slots (n : ℕ) (x z : ℚ) :
    (laneWrites n x z).map Write.slot = (List.range LANE_COUNT).map fun l => n * LANE_COUNT + l := by
  simp [laneWrites, List.map_map, Function.comp_def]

theorem poleWrites_slots (n : ℕ) (idx : ℤ) (x z : ℚ) :
    (poleWrites n idx x z).map Write.slot = [n * 2, n * 2 + 1] := by
  simp only [poleWrites]
  split_ifs <;> rfl

theorem lane_slots (f : ℕ → ℚ) (g : ℕ → ℚ) (n : ℕ) :
    ((List.range n).flatMap fun k => laneWrites k (f k) (g k)).map Write.slot =
      List.range (n * LANE_COUNT) := by
  induction n with
  | zero => simp
  | succ n ih =>
    rw [List.range_succ, List.flatMap_append, List.map_append, ih, Nat.succ_mul, List.range_add]
    simp [laneWrites_slots]

theorem pole_slots (i : ℕ → ℤ) (f : ℕ → ℚ) (g : ℕ → ℚ) (n : ℕ) :
    ((List.range n).flatMap fun k => poleWrites k (i k) (f k) (g k)).map Write.slot =
      List.range (n * 2) := by
  induction n with
  | zero => simp
  | succ n ih =>
    rw [List.range_succ, List.flatMap_append, List.map_append, ih, Nat.succ_mul, List.range_add]
    simp [poleWrites_slots, List.range_succ]

theorem specFrame_slots (s : State) :
    (specFrame s).road.map Write.slot = List.range roadMeshCount ∧
      (specFrame s).roadColor.map Prod.fst = List.range roadMeshCount ∧
      (specFrame s).lane.map Write.slot = List.range laneMeshCount ∧
      (specFrame s).pole.map Write.slot = List.range poleMeshCount := by
  refine ⟨?_, ?_, ?_, ?_⟩
  · simp [specFrame, roadMeshCount, List.map_map, Function.comp_def]
  · simp [specFrame, roadMeshCount, List.map_map, Function.comp_def]
  · simp only [specFrame, laneMeshCount]
    exact lane_slots _ _ _
  · simp only [specFrame, poleMeshCount]
    exact pole_slots _ _ _ _

/-- C15 (pool writes stay within capacity and overwrite everything): in every
frame of every state reached from start-up, the slots written to the road pool
(matrices and colours) are exactly `0 .. DRAW_D - 1`, those written to the lane
pool exactly `0 .. DRAW_D * LANE_COUNT - 1` and those written to the pole pool
exactly `0 .. 2 * DRAW_D - 1`, each once and in increasing order; these are the
instance counts 1000, 7000 and 2000 the pools were created with. -/
theorem pool_writes (random : ℕ → Rand) (ks : List Keys) (keys : Keys) :
    (roadMeshCount = DRAW_D ∧ laneMeshCount = DRAW_D * LANE_COUNT ∧
        poleMeshCount = DRAW_D * 2 ∧
        roadMeshCount = 1000 ∧ laneMeshCount = 7000 ∧ poleMeshCount = 2000) ∧
      ∃ s r, run random ks = some s ∧ animate random keys s = some r ∧
        r.2.road.map Write.slot = List.range roadMeshCount ∧
        r.2.roadColor.map Prod.fst = List.range roadMeshCount ∧
        r.2.lane.map Write.slot = List.range laneMeshCount ∧
        r.2.pole.map Write.slot = List.range poleMeshCount ∧
        (r.2.road.map Write.slot).Nodup ∧ (r.2.lane.map Write.slot).Nodup ∧
        (r.2.pole.map Write.slot).Nodup := by
  refine ⟨⟨rfl, rfl, rfl, rfl, rfl, rfl⟩, ?_⟩
  obtain ⟨s, r, hs, ha, hf, _⟩ := reachable_frame random ks keys
  obtain ⟨h1, h2, h3, h4⟩ := specFrame_slots r.1
  rw [← hf] at h1 h2 h3 h4
  refine ⟨s, r, hs, ha, h1, h2, h3, h4, ?_, ?_, ?_⟩
  · rw [h1]
    exact List.nodup_range _
  · rw [h3]
    exact List.nodup_range _
  · rw [h4]
    exact List.nodup_range _

end OutRun

namespace OutRun

theorem flatMap_two_length {α : Type} (f : ℕ → List α) (hf : ∀ k, (f k).length = 2) (N : ℕ) :
    ((List.range N).flatMap f).length = N * 2 := by
  induction N with
  | zero => simp
  | succ N ih =>
    rw [List.range_succ, List.flatMap_append, List.length_append, ih]
    simp [hf]
    omega

theorem flatMap_two_getElem? {α : Type} (f : ℕ → List α) (hf : ∀ k, (f k).length = 2)
    (N k i : ℕ) (hk : k < N) (hi : i < 2) :
    ((List.range N).flatMap f)[k * 2 + i]? = (f k)[i]? := by
  induction N with
  | zero => omega
  | succ N ih =>
    rw [List.range_succ, List.flatMap_append]
    have hlen := flatMap_two_length f hf N
    by_cases hkN : k < N
    · rw [List.getElem?_append_left (by omega)]
      exact ih hkN
    · have hkeq : k = N := by omega
      subst hkeq
      rw [List.getElem?_append_right (by omega), hlen]
      have he : k * 2 + i - k * 2 = i := by omega
      rw [he]
      simp

theorem poleWrites_length (n : ℕ) (idx : ℤ) (x z : ℚ) : (poleWrites n idx x z).length = 2 := by
  simp only [poleWrites]
  split_ifs <;> rfl

theorem specFrame_road (s : State) (n : ℕ) (hn : n < DRAW_D) :
    (specFrame s).road[n]? =
      some { slot := n,
             x := integX (curveAt s.segments (startIdxOf s))
                    (seedDx (curveAt s.segments (startIdxOf s)) OFFSET_BACK)
                    (seedCurrX (curveAt s.segments (startIdxOf s)) OFFSET_BACK) n - s.playerX,
             y := 0, z := relZ (jsMod s.pos SEG_L) n } := by
  simp [specFrame, hn]

theorem specFrame_pole (s : State) (n : ℕ) (hn : n < DRAW_D) (i : ℕ) (hi : i < 2) :
    (specFrame s).pole[n * 2 + i]? =
      (poleWrites n (resolveIdx s.segments.length (startIdxOf s + (n : ℤ)))
        (integX (curveAt s.segments (startIdxOf s))
          (seedDx (curveAt s.segments (startIdxOf s)) OFFSET_BACK)
          (seedCurrX (curveAt s.segments (startIdxOf s)) OFFSET_BACK) n - s.playerX)
        (relZ (jsMod s.pos SEG_L) n))[i]? := by
  simp only [specFrame]
  exact flatMap_two_getElem? _ (fun k => poleWrites_length _ _ _ _) DRAW_D n i hn hi

/-- C19 (pole placement): in every frame of every state reached from start-up
and for every drawn slot `n < DRAW_D`, with `idx` the index resolved for the slot
(`0 ≤ idx < segments.length`) and the road tile of the slot written at
`(segmentX, 0, relativeZ)`: if `idx % 10 = 0` the pole slots `2n` and `2n + 1` are
written at `(segmentX - ROAD_W/2 - 200, 300, relativeZ)` and
`(segmentX + ROAD_W/2 + 200, 300, relativeZ)`, otherwise both are written at
`(0, -50000, 0)`; so the slot shows a pole (height 300) exactly when `idx` is a
multiple of 10. -/
theorem pole_placement (random : ℕ → Rand) (ks : List Keys) (keys : Keys) (n : Fin DRAW_D) :
    ∃ s r segmentX relativeZ, run random ks = some s ∧ animate random keys s = some r ∧
      r.2.road[n.val]? = some { slot := n.val, x := segmentX, y := 0, z := relativeZ } ∧
      0 ≤ resolveIdx r.1.segments.length (startIdxOf r.1 + (n.val : ℤ)) ∧
      resolveIdx r.1.segments.length (startIdxOf r.1 + (n.val : ℤ)) < r.1.segments.length ∧
      r.2.pole[n.val * 2]? = some
        (if Int.tmod (resolveIdx r.1.segments.length (startIdxOf r.1 + (n.val : ℤ))) 10 = 0
         then { slot := n.val * 2, x := segmentX - ROAD_W / 2 - 200, y := 300, z := relativeZ }
         else { slot := n.val * 2, x := 0, y := -50000, z := 0 }) ∧
      r.2.pole[n.val * 2 + 1]? = some
        (if Int.tmod (resolveIdx r.1.segments.length (startIdxOf r.1 + (n.val : ℤ))) 10 = 0
         then { slot := n.val * 2 + 1, x := segmentX + ROAD_W / 2 + 200, y := 300,
                z := relativeZ }
         else { slot := n.val * 2 + 1, x := 0, y := -50000, z := 0 }) ∧
      (∃ w1 w2, r.2.pole[n.val * 2]? = some w1 ∧ r.2.pole[n.val * 2 + 1]? = some w2 ∧
        (w1.y = 300 ↔
          (10 : ℤ) ∣ resolveIdx r.1.segments.length (startIdxOf r.1 + (n.val : ℤ))) ∧
        (w2.y = 300 ↔
          (10 : ℤ) ∣ resolveIdx r.1.segments.length (startIdxOf r.1 + (n.val : ℤ)))) := by
  obtain ⟨s, r, hs, ha, hf, hlen⟩ := reachable_frame random ks keys
  have hl : (0 : ℤ) < r.1.segments.length := by exact_mod_cast hlen
  have hroad := specFrame_road r.1 n.val n.isLt
  have hp0 := specFrame_pole r.1 n.val n.isLt 0 (by norm_num)
  have hp1 := specFrame_pole r.1 n.val n.isLt 1 (by norm_num)
  rw [← hf] at hroad hp0 hp1
  rw [Nat.add_zero] at hp0
  have hd : ∀ z : ℤ, Int.tmod z 10 = 0 ↔ (10 : ℤ) ∣ z := fun z =>
    Int.dvd_iff_tmod_eq_zero.symm
  refine ⟨s, r, _, _, hs, ha, hroad, resolveIdx_nonneg _ _ hl, resolveIdx_lt _ _ hl, ?_, ?_, ?_⟩
  · rw [hp0]
    simp only [poleWrites]
    split_ifs <;> rfl
  · rw [hp1]
    simp only [poleWrites]
    split_ifs <;> rfl
  · rw [hp0, hp1]
    simp only [poleWrites]
    split_ifs with h10
    · exact ⟨_, _, rfl, rfl, ⟨fun _ => (hd _).mp h10, fun _ => rfl⟩,
        ⟨fun _ => (hd _).mp h10, fun _ => rfl⟩⟩
    · refine ⟨_, _, rfl, rfl, ⟨fun h => ?_, fun h => absurd ((hd _).mpr h) h10⟩,
        ⟨fun h => ?_, fun h => absurd ((hd _).mpr h) h10⟩⟩
      · norm_num at h
      · norm_num at h

end OutRun

namespace OutRun

/-! ## Double integration of the curvature -/

theorem sum_update_weighted (S : Finset ℕ) (w c : ℕ → ℚ) (n : ℕ) (v : ℚ) :
    ∑ i ∈ S, w i * Function.update c n v i =
      ∑ i ∈ S, w i * c i + if n ∈ S then w n * (v - c n) else 0 := by
  have h : ∀ i, w i * Function.update c n v i =
      w i * c i + (if i = n then w n * (v - c n) else 0) := by
    intro i
    by_cases hi : i = n
    · subst hi
      simp
      ring
    · simp [hi, Function.update_noteq hi]
  simp_rw [h]
  rw [Finset.sum_add_distrib, Finset.sum_ite_eq']

theorem jsMod_zero : jsMod 0 SEG_L = 0 := by
  simp [jsMod]

end OutRun

namespace OutRun

theorem placement_update (c : ℕ → ℚ) (n : ℕ) (v : ℚ) :
    (∑ j ∈ Finset.range OFFSET_BACK, ((OFFSET_BACK : ℚ) - (j : ℚ)) * Function.update c n v j) +
        (n : ℚ) * (∑ j ∈ Finset.range OFFSET_BACK, Function.update c n v j) +
        (∑ m ∈ Finset.range n, ((n : ℚ) - 1 - (m : ℚ)) * Function.update c n v m) =
      (∑ j ∈ Finset.range OFFSET_BACK, ((OFFSET_BACK : ℚ) - (j : ℚ)) * c j) +
        (n : ℚ) * (∑ j ∈ Finset.range OFFSET_BACK, c j) +
        (∑ m ∈ Finset.range n, ((n : ℚ) - 1 - (m : ℚ)) * c m) +
        (if n < OFFSET_BACK then (OFFSET_BACK : ℚ) * (v - c n) else 0) := by
  have h1 := sum_update_weighted (Finset.range OFFSET_BACK)
    (fun j => (OFFSET_BACK : ℚ) - (j : ℚ)) c n v
  have h2 := sum_update_weighted (Finset.range OFFSET_BACK) (fun _ => (1 : ℚ)) c n v
  have h3 := sum_update_weighted (Finset.range n) (fun m => (n : ℚ) - 1 - (m : ℚ)) c n v
  simp only [one_mul, Finset.mem_range, lt_irrefl, if_false, add_zero] at h1 h2 h3
  rw [h1, h2, h3]
  split_ifs <;> ring

/-- C20, amended (double integration of curvature): in every frame of every
state reached from start-up, writing `c k` for the curvature of the segment
resolved from `startIdx + k` in the state after the physics step, the seed loop
yields `dx0 = sum over j < OFFSET_BACK of c j` and
`currX0 = sum over j < OFFSET_BACK of (OFFSET_BACK - j) * c j`, and for every
`n < DRAW_D` the road tile written at slot `n` has
`segmentX = currX0 + n * dx0 + (sum over m < n of (n - 1 - m) * c m) - playerX` and
`relativeZ = -((n - OFFSET_BACK) * SEG_L - (pos mod SEG_L))`.  Replacing `c n` by
`v` leaves the placement of slot `n` unchanged when `n ≥ OFFSET_BACK`, and moves it
by `OFFSET_BACK * (v - c n)` when `n < OFFSET_BACK` (through the seed loop, which
reads the segments of the first `OFFSET_BACK` slots). -/
theorem double_integration (random : ℕ → Rand) (ks : List Keys) (keys : Keys)
    (n : Fin DRAW_D) (c1 : ℕ → ℚ) (v : ℚ) :
    (∃ s r, run random ks = some s ∧ animate random keys s = some r ∧
      startIdxOf r.1 = ⌊r.1.pos / SEG_L⌋ - (OFFSET_BACK : ℤ) ∧
      (∀ k : ℕ, ∃ seg,
        getSeg r.1.segments (resolveIdx r.1.segments.length (startIdxOf r.1 + (k : ℤ))) =
          some seg ∧
        seg.curve = curveAt r.1.segments (startIdxOf r.1) k) ∧
      (List.range OFFSET_BACK).foldlM (seedStep r.1.segments (startIdxOf r.1))
          ((0, 0) : ℚ × ℚ) =
        some (∑ j ∈ Finset.range OFFSET_BACK, curveAt r.1.segments (startIdxOf r.1) j,
              ∑ j ∈ Finset.range OFFSET_BACK,
                ((OFFSET_BACK : ℚ) - (j : ℚ)) * curveAt r.1.segments (startIdxOf r.1) j) ∧
      r.2.road[n.val]? = some
        { slot := n.val,
          x := (∑ j ∈ Finset.range OFFSET_BACK,
                  ((OFFSET_BACK : ℚ) - (j : ℚ)) * curveAt r.1.segments (startIdxOf r.1) j) +
                (n.val : ℚ) *
                  (∑ j ∈ Finset.range OFFSET_BACK, curveAt r.1.segments (startIdxOf r.1) j) +
                (∑ m ∈ Finset.range n.val,
                  ((n.val : ℚ) - 1 - (m : ℚ)) * curveAt r.1.segments (startIdxOf r.1) m) -
                r.1.playerX,
          y := 0,
          z := -(((n.val : ℚ) - (OFFSET_BACK : ℚ)) * SEG_L - jsMod r.1.pos SEG_L) }) ∧
      ((∑ j ∈ Finset.range OFFSET_BACK,
            ((OFFSET_BACK : ℚ) - (j : ℚ)) * Function.update c1 n.val v j) +
          (n.val : ℚ) * (∑ j ∈ Finset.range OFFSET_BACK, Function.update c1 n.val v j) +
          (∑ m ∈ Finset.range n.val,
            ((n.val : ℚ) - 1 - (m : ℚ)) * Function.update c1 n.val v m) =
        (∑ j ∈ Finset.range OFFSET_BACK, ((OFFSET_BACK : ℚ) - (j : ℚ)) * c1 j) +
          (n.val : ℚ) * (∑ j ∈ Finset.range OFFSET_BACK, c1 j) +
          (∑ m ∈ Finset.range n.val, ((n.val : ℚ) - 1 - (m : ℚ)) * c1 m) +
          (if n.val < OFFSET_BACK then (OFFSET_BACK : ℚ) * (v - c1 n.val) else 0)) := by
  refine ⟨?_, placement_update c1 n.val v⟩
  obtain ⟨s, r, hs, ha, hf, hlen⟩ := reachable_frame random ks keys
  have hroad := specFrame_road r.1 n.val n.isLt
  rw [← hf] at hroad
  refine ⟨s, r, hs, ha, rfl, fun k => ⟨_, getSeg_segAt r.1.segments _ k hlen, rfl⟩, ?_, ?_⟩
  · exact seedLoop_eq r.1.segments (startIdxOf r.1) hlen OFFSET_BACK
  · rw [hroad]
    rfl

end OutRun

namespace OutRun

/-! ## The first frame after start-up, on two stores that differ in the last chunk -/

theorem generateTrackLoop_add (random : ℕ → Rand) (a b : ℕ) (s : State) :
    generateTrackLoop random (a + b) s =
      generateTrackLoop random b (generateTrackLoop random a s) := by
  induction b with
  | zero => rfl
  | succ b ih =>
    rw [← Nat.add_assoc, generateTrackLoop_succ, ih, ← generateTrackLoop_succ]

theorem generateTrackLoop_one_straight (random : ℕ → Rand) (t : State)
    (h1 : t.segments.length < 20000) (h2 : (random t.rng).val < 0.3) :
    generateTrackLoop random 1 t =
      { t with
        segments := addRoadChunk (200 + ⌊(random (t.rng + 1)).val * 300⌋.toNat) 0 t.segments
        rng := t.rng + 2 } := by
  simp only [generateTrackLoop, if_pos h1, if_pos h2]

theorem generateTrackLoop_one_curved (random : ℕ → Rand) (t : State)
    (h1 : t.segments.length < 20000) (h2 : ¬ (random t.rng).val < 0.3) :
    generateTrackLoop random 1 t =
      { t with
        segments := addRoadChunk (200 + ⌊(random (t.rng + 1)).val * 300⌋.toNat)
          ((if (random (t.rng + 2)).val > 0.5 then 1 else -1) *
            ((2.0 + (random (t.rng + 3)).val * 3.0) * t.difficulty)) t.segments
        difficulty := t.difficulty + 0.01
        rng := t.rng + 4 } := by
  simp only [generateTrackLoop, if_pos h1, if_neg h2]

theorem spikeRandom_val (n : ℕ) (h : n ≠ 194) : (spikeRandom n).val = 0 := by
  simp [spikeRandom, h]

theorem spikeRandom_val_194 : (spikeRandom 194).val = 1 / 2 := by
  simp [spikeRandom]

/-- The first 97 iterations of the start-up generation are the same for the
all-zero stream and for `spikeRandom`: straight chunks of 200 segments. -/
theorem spike_first_chunks (k : ℕ) (hk : k ≤ 97) :
    generateTrackLoop spikeRandom k seeded = generateTrackLoop zeroRandom k seeded ∧
      (generateTrackLoop zeroRandom k seeded).segments.length = 500 + 200 * k ∧
      (generateTrackLoop zeroRandom k seeded).rng = 2 * k ∧
      (generateTrackLoop zeroRandom k seeded).difficulty = 1.0 := by
  induction k with
  | zero =>
    have h0 : ∀ r : ℕ → Rand, generateTrackLoop r 0 seeded = seeded := fun _ => rfl
    rw [h0, h0]
    refine ⟨rfl, ?_, ?_, ?_⟩
    · simp [seeded]
    · simp [seeded]
    · simp [seeded]
  | succ k ih =>
    obtain ⟨he, hl, hr, hd⟩ := ih (by omega)
    have hlt : (generateTrackLoop zeroRandom k seeded).segments.length < 20000 := by omega
    have hz : ((zeroRandom (generateTrackLoop zeroRandom k seeded).rng).val : ℚ) < 0.3 := by
      show (0 : ℚ) < 0.3
      norm_num
    have hs : (spikeRandom (generateTrackLoop zeroRandom k seeded).rng).val < 0.3 := by
      rw [hr, spikeRandom_val _ (by omega)]
      norm_num
    have hs1 : (spikeRandom ((generateTrackLoop zeroRandom k seeded).rng + 1)).val = 0 := by
      rw [hr]
      exact spikeRandom_val _ (by omega)
    have hz1 : (zeroRandom ((generateTrackLoop zeroRandom k seeded).rng + 1)).val = 0 := rfl
    rw [generateTrackLoop_succ spikeRandom k, generateTrackLoop_succ zeroRandom k, he,
      generateTrackLoop_one_straight spikeRandom _ hlt hs,
      generateTrackLoop_one_straight zeroRandom _ hlt hz, hs1, hz1]
    refine ⟨rfl, ?_, ?_, hd⟩
    · simp only [addRoadChunk_length, hl]
      norm_num
      omega
    · show (generateTrackLoop zeroRandom k seeded).rng + 2 = 2 * (k + 1)
      omega

end OutRun

namespace OutRun

theorem generateTrackLoop_three (random : ℕ → Rand) (t t1 : State)
    (h1 : generateTrackLoop random 1 t = t1) (h2 : 20000 ≤ t1.segments.length) :
    generateTrackLoop random 3 t = t1 := by
  rw [show (3 : ℕ) = 1 + 2 from rfl, generateTrackLoop_add, h1]
  exact generateTrackLoop_of_ge random 2 t1 h2

/-- The stores built at start-up from the all-zero stream and from `spikeRandom`
are the same 19900 segments followed by a last chunk of 200 segments, straight
for the first and of curve -2 for the second. -/
theorem initial_stores :
    (generateTrackLoop zeroRandom 97 seeded).segments.length = 19900 ∧
      (initial zeroRandom).segments =
        addRoadChunk 200 0 (generateTrackLoop zeroRandom 97 seeded).segments ∧
      (initial spikeRandom).segments =
        addRoadChunk 200 (-2) (generateTrackLoop zeroRandom 97 seeded).segments := by
  obtain ⟨he, hl, hr, hd⟩ := spike_first_chunks 97 (le_refl 97)
  have hlen : (generateTrackLoop zeroRandom 97 seeded).segments.length = 19900 := by
    rw [hl]
  have hlt : (generateTrackLoop zeroRandom 97 seeded).segments.length < 20000 := by omega
  refine ⟨hlen, ?_, ?_⟩
  · have hz : ((zeroRandom (generateTrackLoop zeroRandom 97 seeded).rng).val : ℚ) < 0.3 := by
      show (0 : ℚ) < 0.3
      norm_num
    have hz1 : (zeroRandom ((generateTrackLoop zeroRandom 97 seeded).rng + 1)).val = 0 := rfl
    have h1 := generateTrackLoop_one_straight zeroRandom _ hlt hz
    rw [hz1] at h1
    have h3 := generateTrackLoop_three zeroRandom _ _ h1
      (by simp only [addRoadChunk_length, hlen]; norm_num)
    rw [initial_eq_seeded]
    unfold generateTrack
    rw [show (100 : ℕ) = 97 + 3 from rfl, generateTrackLoop_add, h3]
    simp
  · have hs : ¬ (spikeRandom (generateTrackLoop zeroRandom 97 seeded).rng).val < 0.3 := by
      rw [hr, spikeRandom_val_194]
      norm_num
    have hs1 : (spikeRandom ((generateTrackLoop zeroRandom 97 seeded).rng + 1)).val = 0 := by
      rw [hr]
      exact spikeRandom_val _ (by norm_num)
    have hs2 : (spikeRandom ((generateTrackLoop zeroRandom 97 seeded).rng + 2)).val = 0 := by
      rw [hr]
      exact spikeRandom_val _ (by norm_num)
    have hs3 : (spikeRandom ((generateTrackLoop zeroRandom 97 seeded).rng + 3)).val = 0 := by
      rw [hr]
      exact spikeRandom_val _ (by norm_num)
    have h1 := generateTrackLoop_one_curved spikeRandom _ hlt hs
    rw [hs1, hs2, hs3, hd] at h1
    have h3 := generateTrackLoop_three spikeRandom _ _ h1
      (by simp only [addRoadChunk_length, hlen]; norm_num)
    rw [initial_eq_seeded]
    unfold generateTrack
    rw [show (100 : ℕ) = 97 + 3 from rfl, generateTrackLoop_add, he, h3]
    norm_num

end OutRun

namespace OutRun

/-- On a store made of 19900 straight segments followed by a chunk of 200
segments of full curve `curve`, for a window starting at raw index -1: slot 0
draws the last segment of the store (curvature `curve / 50`) and the slots
`1 .. DRAW_D - 1` draw straight segments. -/
theorem window_curveAt (S : List Segment) (hS : S.length = 19900)
    (hz : ∀ seg ∈ S, seg.curve = 0) (curve : ℚ) :
    resolveIdx (addRoadChunk 200 curve S).length (-1 + ((0 : ℕ) : ℤ)) = 20099 ∧
      curveAt (addRoadChunk 200 curve S) (-1) 0 = curve / 50 ∧
      ∀ j : ℕ, 1 ≤ j → j < DRAW_D → curveAt (addRoadChunk 200 curve S) (-1) j = 0 := by
  have hlen : ((addRoadChunk 200 curve S).length : ℤ) = 20100 := by
    rw [addRoadChunk_length, hS]
    rfl
  have hidx : resolveIdx (addRoadChunk 200 curve S).length (-1 + ((0 : ℕ) : ℤ)) = 20099 := by
    rw [hlen]
    decide
  refine ⟨hidx, ?_, ?_⟩
  · have hget := addRoadChunk_getElem?_new 200 curve S 199 (by norm_num)
    have hnat : (20099 : ℤ).toNat = S.length + 199 := by
      rw [hS]
      rfl
    simp only [curveAt, segAt, hidx, getSeg]
    rw [if_pos (by norm_num), hnat, hget, Option.getD_some, rampP_tail 200 199 (by norm_num)]
    norm_num
    ring
  · intro j hj1 hj2
    have hj3 : j < 1000 := hj2
    have hidxj : resolveIdx (addRoadChunk 200 curve S).length (-1 + (j : ℤ)) = (j : ℤ) - 1 := by
      rw [hlen, resolveIdx_eq_emod _ _ (by norm_num)]
      omega
    have hnat : ((j : ℤ) - 1).toNat = j - 1 := by omega
    have hold := addRoadChunk_getElem?_old 200 curve S (j - 1) (by omega)
    have hlt : j - 1 < S.length := by omega
    simp only [curveAt, segAt, hidxj, getSeg]
    rw [if_pos (by omega), hnat, hold, List.getElem?_eq_getElem hlt, Option.getD_some]
    exact hz _ (List.getElem_mem _)

end OutRun

namespace OutRun

theorem accel_pos_closed_form (s0 : State) (hv : s0.speed = 0) (hx : s0.playerX = 0) (n : ℕ)
    (hn : n ≤ 100) :
    (physicsRun (List.replicate n (upKey, 0)) s0).pos =
      s0.pos + 420 * (n : ℚ) - 28980 * (1 - (69 / 70 : ℚ) ^ n) := by
  induction n with
  | zero =>
    show s0.pos = _
    norm_num
  | succ n ih =>
    have ih1 := ih (by omega)
    have hsp := accel_closed_form s0 hv hx (n + 1) hn
    rw [physicsRun_replicate_succ] at hsp ⊢
    rw [physics_pos, hsp]
    show (physicsRun (List.replicate n (upKey, 0)) s0).pos + _ = _
    rw [ih1, pow_succ]
    push_cast
    ring

/-- The curvature read at line 116 is 0 while the vehicle is on the first 19900
segments of a store whose first 19900 segments are straight. -/
theorem currentCurve_front (s : State) (curve : ℚ)
    (hfront : ∀ (i : ℕ) (seg : Segment), i < 19900 → s.segments[i]? = some seg → seg.curve = 0)
    (hlen : 19900 ≤ s.segments.length) (hp0 : 0 ≤ s.pos) (hp1 : s.pos < 7960000)
    (hc : currentCurve s = some curve) : curve = 0 := by
  simp only [currentCurve, Option.map_eq_some'] at hc
  obtain ⟨seg, hseg, rfl⟩ := hc
  have h0 : (0 : ℤ) ≤ ⌊s.pos / SEG_L⌋ := floor_pos_nonneg _ hp0
  have h1 : ⌊s.pos / SEG_L⌋ < 19900 := by
    rw [Int.floor_lt, div_lt_iff₀ (by norm_num [SEG_L])]
    norm_num [SEG_L]
    linarith
  have hl : (0 : ℤ) ≤ (s.segments.length : ℤ) := Int.natCast_nonneg _
  have ht : Int.tmod ⌊s.pos / SEG_L⌋ (s.segments.length : ℤ) = ⌊s.pos / SEG_L⌋ := by
    rw [Int.tmod_eq_emod h0 hl]
    exact Int.emod_eq_of_lt h0 (by omega)
  rw [ht] at hseg
  simp only [getSeg, if_pos h0] at hseg
  exact hfront _ seg (by omega) hseg

/-- While the vehicle is on the straight front of the store, the frame loop is
the physics step iterated on curvature 0. -/
theorem ticks_front_straight (random : ℕ → Rand) (ks : List Keys) (s : State) (k : ℕ)
    (hI : Inv s)
    (hfront : ∀ (i : ℕ) (seg : Segment), i < 19900 → s.segments[i]? = some seg → seg.curve = 0)
    (hpos : s.pos ≤ 420 * (k : ℚ)) (hk : k + ks.length ≤ 18000) :
    ticks random ks s = some (physicsRun (ks.map fun key => (key, (0 : ℚ))) s) ∧
      Inv (physicsRun (ks.map fun key => (key, (0 : ℚ))) s) ∧
      (physicsRun (ks.map fun key => (key, (0 : ℚ))) s).segments = s.segments ∧
      (physicsRun (ks.map fun key => (key, (0 : ℚ))) s).pos ≤ 420 * ((k + ks.length : ℕ) : ℚ) := by
  induction ks generalizing s k with
  | nil => exact ⟨rfl, hI, rfl, by simpa using hpos⟩
  | cons keys ks ih =>
    simp only [List.length_cons] at hk
    obtain ⟨curve, frame, hc, ha, hI1⟩ := animate_of_Inv random keys s hI
    have hkq : (k : ℚ) ≤ 18000 := by exact_mod_cast (by omega : k ≤ 18000)
    have hc0 : curve = 0 :=
      currentCurve_front s curve hfront (by have := hI.1; omega) hI.2.2.1 (by linarith) hc
    subst hc0
    have hpos1 : (physics keys 0 s).pos ≤ 420 * ((k + 1 : ℕ) : ℚ) := by
      rw [physics_pos]
      have := physics_speed_le keys 0 s
      simp only [MAX_SPEED] at this
      push_cast
      linarith
    obtain ⟨h1, h2, h3, h4⟩ := ih (physics keys 0 s) (k + 1) hI1
      (by rw [physics_segments]; exact hfront) hpos1 (by omega)
    have hcons : physicsRun ((keys :: ks).map fun key => (key, (0 : ℚ))) s =
        physicsRun (ks.map fun key => (key, (0 : ℚ))) (physics keys 0 s) := rfl
    rw [hcons]
    refine ⟨?_, h2, by rw [h3, physics_segments], ?_⟩
    · simp only [ticks, ha, Option.some_bind]
      exact h1
    · have he : k + 1 + ks.length = k + (ks.length + 1) := by omega
      rw [he] at h4
      simpa using h4

end OutRun

namespace OutRun

theorem front_chunks_straight :
    ∀ seg ∈ (generateTrackLoop zeroRandom 97 seeded).segments, seg.curve = 0 := by
  apply generateTrackLoop_zeroRandom
  have h : ∀ seg ∈ ([] : List Segment), seg.curve = 0 := by
    intro seg hseg
    cases hseg
  have h1 := addRoadChunk_straight 500 [] h
  unfold seeded
  dsimp only
  exact h1

/-- The frame of the 25th tick with the accelerate key held, on a store made of
19900 straight segments followed by a chunk of 200 segments of full curve
`curve`: the vehicle is in segment 4 with `playerX = 0`, the window starts at raw
index -1, and the road tile of slot 0 is written at `x = curve / 10`. -/
theorem frame_in_segment_four (random : ℕ → Rand) (curve : ℚ) (S : List Segment)
    (hS : S.length = 19900) (hz : ∀ seg ∈ S, seg.curve = 0)
    (hstore : (initial random).segments = addRoadChunk 200 curve S) :
    ∃ s r, run random (List.replicate 24 upKey) = some s ∧ animate random upKey s = some r ∧
      r.1.segments = addRoadChunk 200 curve S ∧
      r.1.pos = 420 * 25 - 28980 * (1 - (69 / 70 : ℚ) ^ 25) ∧ r.1.playerX = 0 ∧
      startIdxOf r.1 = -1 ∧
      (r.2.road[0]?).map Write.x = some (curve / 10) := by
  obtain ⟨hp0, hx0, hv0⟩ := initial_vehicle random
  have hfront : ∀ (i : ℕ) (seg : Segment), i < 19900 →
      (initial random).segments[i]? = some seg → seg.curve = 0 := by
    intro i seg hi hseg
    rw [hstore, addRoadChunk_getElem?_old 200 curve S i (by omega)] at hseg
    exact hz seg (List.getElem?_mem hseg)
  obtain ⟨ht, hI24, hseg24, hpos24⟩ := ticks_front_straight random (List.replicate 24 upKey)
    (initial random) 0 (initial_Inv random) hfront (by rw [hp0]; norm_num) (by simp)
  rw [List.map_replicate] at ht hI24 hseg24 hpos24
  obtain ⟨c, hc, ha, _⟩ := animate_eq_of_Inv random upKey _ hI24
  have hc0 : c = 0 := by
    refine currentCurve_front _ c ?_ ?_ hI24.2.2.1 ?_ hc
    · rw [hseg24]
      exact hfront
    · have := hI24.1
      omega
    · have h24 : (420 : ℚ) * ((0 + (List.replicate 24 upKey).length : ℕ) : ℚ) = 10080 := by
        simp
        norm_num
      rw [h24] at hpos24
      linarith
  subst hc0
  rw [← physicsRun_replicate_succ (upKey, 0) 24 (initial random)] at ha
  have hpos := accel_pos_closed_form (initial random) hv0 hx0 25 (by norm_num)
  rw [hp0] at hpos
  have hpos1 : (physicsRun (List.replicate (24 + 1) (upKey, 0)) (initial random)).pos =
      420 * 25 - 28980 * (1 - (69 / 70 : ℚ) ^ 25) := by
    rw [hpos]
    norm_num
  have hpx := accel_playerX (initial random) hx0 25
  have hsegs : (physicsRun (List.replicate (24 + 1) (upKey, 0)) (initial random)).segments =
      addRoadChunk 200 curve S := by
    rw [physicsRun_replicate_succ, physics_segments, hseg24, hstore]
  have hstart : startIdxOf (physicsRun (List.replicate (24 + 1) (upKey, 0)) (initial random)) =
      -1 := by
    have hfl : ⌊(physicsRun (List.replicate (24 + 1) (upKey, 0)) (initial random)).pos / SEG_L⌋ =
        4 := by
      rw [hpos1, Int.floor_eq_iff]
      norm_num [SEG_L]
    simp only [startIdxOf, hfl, OFFSET_BACK]
    norm_num
  obtain ⟨_, hw0, hwj⟩ := window_curveAt S hS hz curve
  refine ⟨_, _, ht, ha, hsegs, hpos1, hpx, hstart, ?_⟩
  show ((specFrame (physicsRun (List.replicate (24 + 1) (upKey, 0)) (initial random))).road[0]?).map
    Write.x = _
  rw [specFrame_road _ 0 (by decide), hstart, hsegs, hpx, Option.map_some']
  simp only [integX, seedCurrX, OFFSET_BACK, Finset.sum_range_succ, Finset.sum_range_zero, hw0,
    hwj 1 (by norm_num) (by decide), hwj 2 (by norm_num) (by decide),
    hwj 3 (by norm_num) (by decide), hwj 4 (by norm_num) (by decide)]
  norm_num
  ring

end OutRun

namespace OutRun

/-- C20, counterexample: two start-ups, one with the all-zero random stream and
one with `spikeRandom` (1/2 at draw 194, which makes the last chunk a curved one);
both stores are the same 19900 straight segments followed by a last chunk of
200 segments, of curve 0 in the first and -2 in the second.  After 25 frames
with the accelerate key held the vehicle is in segment 4 with `playerX = 0` in
both, so the window starts at raw index -1: slot 0 draws the last segment of
the store (curvature 0 in the first, -1/25 in the second) and every other slot
draws a straight segment in both.  The road tile of slot 0 is written at `x = 0`
in the first and at `x = -1/5` in the second: the curvature of the segment of
slot 0 affects the placement of slot 0. -/
theorem own_curvature_affects_placement :
    ∃ (S : List Segment) (sa sb : State) (a b : State × Frame),
      run zeroRandom (List.replicate 24 upKey) = some sa ∧
      animate zeroRandom upKey sa = some a ∧
      run spikeRandom (List.replicate 24 upKey) = some sb ∧
      animate spikeRandom upKey sb = some b ∧
      S.length = 19900 ∧
      a.1.segments = addRoadChunk 200 0 S ∧ b.1.segments = addRoadChunk 200 (-2) S ∧
      a.1.pos = b.1.pos ∧ a.1.playerX = 0 ∧ b.1.playerX = 0 ∧
      startIdxOf a.1 = -1 ∧ startIdxOf b.1 = -1 ∧
      resolveIdx b.1.segments.length (startIdxOf b.1 + ((0 : ℕ) : ℤ)) = 20099 ∧
      curveAt a.1.segments (startIdxOf a.1) 0 = 0 ∧
      curveAt b.1.segments (startIdxOf b.1) 0 = -1 / 25 ∧
      (∀ j : ℕ, 1 ≤ j → j < DRAW_D →
        curveAt a.1.segments (startIdxOf a.1) j = 0 ∧
        curveAt b.1.segments (startIdxOf b.1) j = 0) ∧
      (a.2.road[0]?).map Write.x = some 0 ∧
      (b.2.road[0]?).map Write.x = some (-1 / 5) := by
  obtain ⟨hS, hA, hB⟩ := initial_stores
  have hz := front_chunks_straight
  obtain ⟨sa, a, ha1, ha2, ha3, ha4, ha5, ha6, ha7⟩ :=
    frame_in_segment_four zeroRandom 0 _ hS hz hA
  obtain ⟨sb, b, hb1, hb2, hb3, hb4, hb5, hb6, hb7⟩ :=
    frame_in_segment_four spikeRandom (-2) _ hS hz hB
  obtain ⟨_, hwa0, hwaj⟩ := window_curveAt _ hS hz 0
  obtain ⟨hwbi, hwb0, hwbj⟩ := window_curveAt _ hS hz (-2)
  refine ⟨_, sa, sb, a, b, ha1, ha2, hb1, hb2, hS, ha3, hb3, by rw [ha4, hb4], ha5, hb5, ha6, hb6,
    ?_, ?_, ?_, ?_, ?_, ?_⟩
  · rw [hb6, hb3]
    exact hwbi
  · rw [ha6, ha3, hwa0]
    norm_num
  · rw [hb6, hb3, hwb0]
    norm_num
  · intro j hj1 hj2
    rw [ha6, ha3, hb6, hb3]
    exact ⟨hwaj j hj1 hj2, hwbj j hj1 hj2⟩
  · rw [ha7]
    norm_num
  · rw [hb7]
    norm_num

end OutRun
